import Mathlib

/-! # SyncBucketLocalFolder: a shallow embedding of `main.go`

The program mirrors a local folder onto a bucket of an object store.  This file
embeds the parts of `main.go` that carry the synchronisation logic:

* `strings.HasPrefix` / `strings.TrimPrefix`, which compute the object key;
* the closures `uploadFile` and `deleteFile`;
* the callback handed to `filepath.Walk` and the walk itself;
* the body of the watcher goroutine;
* `loadConfig`, `setupConfig`, `installCommand` and `main`, with the parsing of
  the command line by the package `flag`.

Everything outside the program (the file system, the object store, the
watcher, the user database) is an explicit environment `Env`: each call to the
outside world is answered by a field of `Env`, which is given the whole history
of effects so far, so that any pattern of failures over time can be expressed.
Every call to the outside world and every line printed is recorded, in order,
in the `trace` of the `State`.
-/

namespace MinioSync

/-! ## Strings -/

/-- A Go string: its bytes in order, a byte being written as the character of
that code.  The paths written out in this file are ASCII. -/
abbrev Str := List Char

/-- File contents. -/
abbrev Bytes := List Nat

/-- Go: `strings.HasPrefix(s, p)` is `len(s) >= len(p) && s[:len(p)] == p`. -/
def HasPrefix (s p : Str) : Bool :=
  decide (s.length ≥ p.length) && (s.take p.length == p)

/-- Go: `strings.TrimPrefix(s, p)` returns `s[len(p):]` when `s` starts with `p`,
and `s` unchanged otherwise. -/
def TrimPrefix (s p : Str) : Str :=
  if HasPrefix s p then s.drop p.length else s

/-! ## The outside world -/

/-- A Go `error` value.  `notExist` stands for the errors on which
`os.IsNotExist` answers true. -/
inductive GoError where
  | notExist
  | Errorf (msg : String)
  | other (code : Nat)
  deriving DecidableEq, Repr

/-- The part of `os.FileInfo` the program reads. -/
structure FileInfo where
  IsDir : Bool
  Size : Nat
  deriving DecidableEq, Repr

/-- The `Config` struct of `main.go`. -/
structure Config where
  EndPoint : Str
  AccessKey : Str
  SecretKey : Str
  Bucket : Str
  Folder : Str
  SSL : Bool
  deriving DecidableEq, Repr

/-- The package-level flag variables of `main.go`. -/
structure Flags where
  endPoint : Str
  accessKey : Str
  secretKey : Str
  bucket : Str
  folder : Str
  useSSL : Bool
  install : Bool
  deriving DecidableEq, Repr

/-- The constants of the package `system` that `main.go` reads. -/
structure SystemConsts where
  EndPoint : Str
  AccessKey : Str
  SecretKey : Str
  Bucket : Str
  LocalFolder : Str
  UseSSL : Bool
  deriving DecidableEq, Repr

/-- The printers of `pterm` the program uses. -/
inductive Level where
  | Info
  | Success
  | Warning
  | Error
  deriving DecidableEq, Repr

/-- Everything the program does to the outside world, one constructor per call
site kind.  `pterm level msg args` is a printed line: `msg` is the literal first
argument in the source, `args` the string arguments that follow it (error
values are left out).  `FlagError` is the error line and `Usage` the usage
text that the package `flag` prints. -/
inductive Effect where
  | pterm (level : Level) (msg : String) (args : List Str)
  | PrintDefaults
  | FlagError
  | Usage
  | UserCurrent
  | Stat (path : Str)
  | ReadFile (path : Str)
  | MkdirAll (path : Str)
  | WriteFile (path : Str) (data : Str)
  | OpenFile (path : Str)
  | WriteString (path : Str) (data : Str)
  | MinioNew (endPoint accessKey secretKey : Str) (Secure : Bool)
  | BucketExists (bucket : Str)
  | MakeBucket (bucket : Str)
  | Open (path : Str)
  | PutObject (bucket objectName : Str) (content : Bytes) (size : Nat)
  | RemoveObject (bucket objectName : Str)
  | Lstat (path : Str)
  | ReadDir (path : Str)
  | AddRecursive (folder : Str)
  | Start
  deriving DecidableEq, Repr

/-- The answers of the outside world.  A field taking a `List Effect` is given
the trace so far, so its answer may change over time. -/
structure Env where
  /-- Go: `os.PathSeparator`. -/
  PathSeparator : Char
  /-- Go: `filepath.Join`. -/
  Join : List Str → Str
  /-- Go: `filepath.Abs`. -/
  Abs : Str → Except GoError Str
  /-- Go: `filepath.Dir`. -/
  Dir : Str → Str
  /-- Go: `runtime.GOOS`. -/
  GOOS : Str
  /-- Go: `os.Args[0]`. -/
  Args0 : Str
  /-- Go: `os.Getenv`. -/
  Getenv : Str → Str
  /-- Go: `user.Current()`, reduced to the home directory it reports. -/
  UserCurrent : List Effect → Except GoError Str
  Stat : List Effect → Str → Except GoError FileInfo
  ReadFile : List Effect → Str → Except GoError Bytes
  /-- Go: `yaml.Unmarshal` into a `Config`. -/
  Unmarshal : Bytes → Except GoError Config
  MkdirAll : List Effect → Str → Option GoError
  WriteFile : List Effect → Str → Str → Option GoError
  OpenFile : List Effect → Str → Option GoError
  WriteString : List Effect → Str → Str → Option GoError
  MinioNew : List Effect → Str → Str → Str → Bool → Option GoError
  BucketExists : List Effect → Str → Except GoError Bool
  MakeBucket : List Effect → Str → Option GoError
  Open : List Effect → Str → Except GoError Bytes
  PutObject : List Effect → Str → Str → Bytes → Nat → Option GoError
  RemoveObject : List Effect → Str → Str → Option GoError
  AddRecursive : List Effect → Str → Option GoError
  Start : List Effect → Option GoError

/-! ## The bucket -/

/-- The objects of the bucket, as a finite map from key to content. -/
abbrev Objects := List (Str × Bytes)

/-- Content stored under a key. -/
def Objects.get (objs : Objects) (key : Str) : Option Bytes :=
  match objs with
  | [] => none
  | (k, v) :: rest => if k = key then some v else Objects.get rest key

/-- A successful put: the object under `key` is replaced, or added when there
is none (overwrite by key). -/
def Objects.put (objs : Objects) (key : Str) (content : Bytes) : Objects :=
  match objs with
  | [] => [(key, content)]
  | (k, v) :: rest =>
    if k = key then (k, content) :: rest else (k, v) :: Objects.put rest key content

/-- A successful delete: the object under `key` is gone. -/
def Objects.remove (objs : Objects) (key : Str) : Objects :=
  match objs with
  | [] => []
  | (k, v) :: rest =>
    if k = key then Objects.remove rest key else (k, v) :: Objects.remove rest key

/-- The keys present in the bucket. -/
def Objects.keys (objs : Objects) : List Str :=
  objs.map Prod.fst

/-- What a run has done so far and what the bucket holds. -/
structure State where
  trace : List Effect
  objects : Objects
  deriving DecidableEq, Repr

/-- Record one effect. -/
def State.emit (st : State) (e : Effect) : State :=
  { st with trace := st.trace ++ [e] }

/-! ## `uploadFile` and `deleteFile` -/

/-- The closure `uploadFile` of `main`, with the captured `*folder` and
`*bucket` as arguments.  The progress bar only prints; the bytes it lets
through are those of the file.  A successful `PutObject` with a known size
stores the first `size` bytes of the stream. -/
def uploadFile (env : Env) (folder bucket : Str) (path : Str) (st : State) : State :=
  match env.Stat st.trace path with
  | .error _ =>
    (st.emit (.Stat path)).emit (.pterm .Error "Error al obtener información del archivo:" [])
  | .ok info =>
    let st := st.emit (.Stat path)
    if info.IsDir then st
    else
      let objectName := TrimPrefix path (folder ++ [env.PathSeparator])
      match env.Open st.trace path with
      | .error _ =>
        (st.emit (.Open path)).emit (.pterm .Error "Error al abrir archivo:" [])
      | .ok content =>
        let st := st.emit (.Open path)
        match env.PutObject st.trace bucket objectName content info.Size with
        | some _ =>
          (st.emit (.PutObject bucket objectName content info.Size)).emit
            (.pterm .Error "Error al subir archivo:" [])
        | none =>
          ({ st with objects := st.objects.put objectName (content.take info.Size) }.emit
            (.PutObject bucket objectName content info.Size)).emit
            (.pterm .Success "Archivo subido:" [objectName])

/-- The closure `deleteFile` of `main`. -/
def deleteFile (env : Env) (folder bucket : Str) (path : Str) (st : State) : State :=
  let objectName := TrimPrefix path (folder ++ [env.PathSeparator])
  match env.RemoveObject st.trace bucket objectName with
  | some _ =>
    (st.emit (.RemoveObject bucket objectName)).emit
      (.pterm .Error "Error al eliminar archivo del bucket:" [])
  | none =>
    ({ st with objects := st.objects.remove objectName }.emit
      (.RemoveObject bucket objectName)).emit
      (.pterm .Warning "Archivo eliminado:" [objectName])

/-! ## The start-up pass: `filepath.Walk` and its callback -/

mutual
/-- What `filepath.Walk` finds at a path: `Lstat` fails, or it reports
something that is not a directory, or it reports a directory, whose names are
then read (`readErr` is the error of that read, if any). -/
inductive FsNode where
  | lstatErr (err : GoError)
  | nonDir (size : Nat)
  | dir (readErr : Option GoError) (entries : FsList)
/-- The entries of a directory, in the order `filepath.Walk` visits them. -/
inductive FsList where
  | nil
  | cons (name : Str) (node : FsNode) (rest : FsList)
end

/-- The function literal handed to `filepath.Walk` in `main`.  `info` is `nil`
only together with an error. -/
def walkFn (env : Env) (folder bucket : Str) (path : Str) (info : Option FileInfo)
    (err : Option GoError) (st : State) : Option GoError × State :=
  match err with
  | some e => (some e, st)
  | none =>
    match info with
    | some i => if !i.IsDir then (none, uploadFile env folder bucket path st) else (none, st)
    | none => (none, st)

mutual
/-- Go: `filepath.walk`, together with the test of the `Lstat` result its
callers make before calling it.  The callback of `main` only hands back the
error it was given, and that is an error of the file system, never the
sentinel `SkipDir` or `SkipAll`: any error it returns stops the walk. -/
def walk (env : Env) (folder bucket : Str) (path : Str) (node : FsNode) (st : State) :
    Option GoError × State :=
  match node with
  | .lstatErr e => walkFn env folder bucket path none (some e) st
  | .nonDir size => walkFn env folder bucket path (some ⟨false, size⟩) none st
  | .dir readErr entries =>
    match walkFn env folder bucket path (some ⟨true, 0⟩) readErr (st.emit (.ReadDir path)) with
    | (some e, st1) => (some e, st1)
    | (none, st1) =>
      match readErr with
      | some _ => (none, st1)
      | none => walkNames env folder bucket path entries st1
/-- Go: the loop `for _, name := range names` of `filepath.walk`. -/
def walkNames (env : Env) (folder bucket : Str) (path : Str) (entries : FsList) (st : State) :
    Option GoError × State :=
  match entries with
  | .nil => (none, st)
  | .cons name node rest =>
    let filename := env.Join [path, name]
    match walk env folder bucket filename node (st.emit (.Lstat filename)) with
    | (some e, st1) => (some e, st1)
    | (none, st1) => walkNames env folder bucket path rest st1
end

/-- Go: `filepath.Walk(root, fn)` with the callback of `main`. -/
def Walk (env : Env) (folder bucket : Str) (root : Str) (tree : FsNode) (st : State) :
    Option GoError × State :=
  walk env folder bucket root tree (st.emit (.Lstat root))

/-! ## The watcher goroutine -/

/-- The `Op` of `github.com/radovskyb/watcher`. -/
inductive Op where
  | Create
  | Write
  | Remove
  | Rename
  | Chmod
  | Move
  deriving DecidableEq, Repr

/-- The fields of `watcher.Event` the program reads. -/
structure Event where
  Op : Op
  Path : Str
  deriving DecidableEq, Repr

/-- What one `select` of the goroutine receives: a value from `w.Event`, from
`w.Error` or from `w.Closed`. -/
inductive Received where
  | event (e : Event)
  | error (err : GoError)
  | closed
  deriving DecidableEq, Repr

/-- Where the goroutine is: in its `for` loop, or returned. -/
inductive LoopState where
  | Watching
  | Closed
  deriving DecidableEq, Repr

/-- The `switch event.Op` of the goroutine. -/
def handleEvent (env : Env) (folder bucket : Str) (event : Event) (st : State) : State :=
  match event.Op with
  | .Create | .Write | .Rename | .Move =>
    uploadFile env folder bucket event.Path
      (st.emit (.pterm .Info "Cambio detectado en:" [event.Path]))
  | .Remove =>
    deleteFile env folder bucket event.Path
      (st.emit (.pterm .Warning "Archivo eliminado:" [event.Path]))
  | .Chmod => st

/-- The `for { select { ... } }` of the goroutine, run on what it receives.
When nothing more is received the goroutine waits in `select`. -/
def watchLoop (env : Env) (folder bucket : Str) (received : List Received) (st : State) :
    LoopState × State :=
  match received with
  | [] => (.Watching, st)
  | .event e :: rest => watchLoop env folder bucket rest (handleEvent env folder bucket e st)
  | .error _ :: rest => watchLoop env folder bucket rest (st.emit (.pterm .Error "Error:" []))
  | .closed :: _ => (.Closed, st)

/-! ## Configuration and `main` -/

/-- The function `loadConfig`. -/
def loadConfig (env : Env) (st : State) : Except GoError Config × State :=
  match env.UserCurrent st.trace with
  | .error e => (.error e, st.emit .UserCurrent)
  | .ok home =>
    let st := st.emit .UserCurrent
    let configFile := env.Join [home, ".minio_sync".toList, "config.yaml".toList]
    match env.Stat st.trace configFile with
    | .error .notExist =>
      (.error (.Errorf "el archivo de configuración no existe"), st.emit (.Stat configFile))
    | _ =>
      let st := st.emit (.Stat configFile)
      match env.ReadFile st.trace configFile with
      | .error e => (.error e, st.emit (.ReadFile configFile))
      | .ok data =>
        match env.Unmarshal data with
        | .error e => (.error e, st.emit (.ReadFile configFile))
        | .ok config => (.ok config, st.emit (.ReadFile configFile))

/-- Go: `fmt.Sprintf("%v", b)` for a boolean. -/
def fmtBool (b : Bool) : Str :=
  if b then "true".toList else "false".toList

/-- The function `setupConfig`.  The first component is the code of an
`os.Exit`, if one was reached. -/
def setupConfig (sys : SystemConsts) (env : Env) (st : State) : Option Nat × State :=
  match env.UserCurrent st.trace with
  | .error _ =>
    (some 1, (st.emit .UserCurrent).emit
      (.pterm .Error "Error al obtener el usuario actual:" []))
  | .ok home =>
    let st := st.emit .UserCurrent
    let configDir := env.Join [home, ".minio_sync".toList]
    let configFile := env.Join [configDir, "config.yaml".toList]
    match env.MkdirAll st.trace configDir with
    | some _ =>
      (some 1, (st.emit (.MkdirAll configDir)).emit
        (.pterm .Error "Error al crear el directorio de configuración:" []))
    | none =>
      let st := st.emit (.MkdirAll configDir)
      match env.Stat st.trace configFile with
      | .error .notExist =>
        let st := st.emit (.Stat configFile)
        let defaultConfig := "endPoint: ".toList ++ sys.EndPoint ++ "\naccessKey: ".toList ++
          sys.AccessKey ++ "\nsecretKey: ".toList ++ sys.SecretKey ++ "\nbucket: ".toList ++
          sys.Bucket ++ "\nfolder: ".toList ++ sys.LocalFolder ++ "\nssl: ".toList ++
          fmtBool sys.UseSSL ++ "\n".toList
        match env.WriteFile st.trace configFile defaultConfig with
        | some _ =>
          (some 1, (st.emit (.WriteFile configFile defaultConfig)).emit
            (.pterm .Error "Error al crear el archivo de configuración:" []))
        | none =>
          (none, (st.emit (.WriteFile configFile defaultConfig)).emit
            (.pterm .Success "Archivo de configuración creado en:" [configFile]))
      | _ =>
        (none, (st.emit (.Stat configFile)).emit
          (.pterm .Info "El archivo de configuración ya existe en:" [configFile]))

/-- The function `installCommand`.  The first component is the code of an
`os.Exit`, if one was reached. -/
def installCommand (env : Env) (st : State) : Option Nat × State :=
  if env.GOOS = "windows".toList then
    match env.Abs env.Args0 with
    | .error _ =>
      (some 1, st.emit (.pterm .Error "Error al obtener la ruta del ejecutable:" []))
    | .ok cmdPath =>
      let installScript := "setx PATH \"%PATH%;".toList ++ env.Dir cmdPath ++ "\"".toList
      match env.WriteFile st.trace "install.bat".toList installScript with
      | some _ =>
        (some 1, (st.emit (.WriteFile "install.bat".toList installScript)).emit
          (.pterm .Error "Error al crear el archivo de instalación:" []))
      | none =>
        (none, (st.emit (.WriteFile "install.bat".toList installScript)).emit
          (.pterm .Success
            "Instalador creado: ejecuta install.bat para agregar el programa al PATH" []))
  else
    match env.Abs env.Args0 with
    | .error _ =>
      (some 1, st.emit (.pterm .Error "Error al obtener la ruta del ejecutable:" []))
    | .ok cmdPath =>
      let installScript := "export PATH=$PATH:".toList ++ env.Dir cmdPath
      let shellConfig :=
        if env.GOOS = "darwin".toList then env.Join [env.Getenv "HOME".toList, ".zshrc".toList]
        else env.Join [env.Getenv "HOME".toList, ".bashrc".toList]
      match env.OpenFile st.trace shellConfig with
      | some _ =>
        (some 1, (st.emit (.OpenFile shellConfig)).emit
          (.pterm .Error "Error al abrir el archivo de configuración del shell:" []))
      | none =>
        let st := st.emit (.OpenFile shellConfig)
        let data := "\n".toList ++ installScript ++ "\n".toList
        match env.WriteString st.trace shellConfig data with
        | some _ =>
          (some 1, (st.emit (.WriteString shellConfig data)).emit
            (.pterm .Error "Error al escribir en el archivo de configuración del shell:" []))
        | none =>
          (none, (st.emit (.WriteString shellConfig data)).emit
            (.pterm .Success "El programa ha sido instalado. Ejecuta 'source"
              [shellConfig, "' para aplicar los cambios.".toList]))

/-- The six assignments of `main` that fill the flags left blank from the
configuration file. -/
def mergeFlags (flags : Flags) (config : Config) : Flags :=
  { endPoint := if flags.endPoint = [] then config.EndPoint else flags.endPoint
    accessKey := if flags.accessKey = [] then config.AccessKey else flags.accessKey
    secretKey := if flags.secretKey = [] then config.SecretKey else flags.secretKey
    folder := if flags.folder = [] then config.Folder else flags.folder
    bucket := if flags.bucket = [] then config.Bucket else flags.bucket
    useSSL := if !flags.useSSL then config.SSL else flags.useSSL
    install := flags.install }

/-- The test of `main` that ends in `flag.PrintDefaults(); os.Exit(1)`. -/
def missingRequired (flags : Flags) : Bool :=
  decide (flags.endPoint = []) || decide (flags.accessKey = []) ||
    decide (flags.secretKey = []) || decide (flags.folder = []) || decide (flags.bucket = [])

/-- The outcome of a run of the process: its exit code, or `none` while it is
still running, and the state reached. -/
structure Run where
  exit : Option Nat
  state : State
  deriving DecidableEq, Repr

/-- The part of `main` from the start-up upload on: the walk over the folder,
the registration of the watch, the goroutine and `w.Start`.  `flags` are the
merged flags.  `w.Start` returns without error once the watcher is closed, and
`main` returns after it. -/
def syncFolder (env : Env) (flags : Flags) (tree : FsNode) (received : List Received)
    (st : State) : Run :=
  match Walk env flags.folder flags.bucket flags.folder tree
      (st.emit (.pterm .Info "Subiendo archivos existentes..." [])) with
  | (some _, st) => ⟨some 1, st.emit (.pterm .Error "Error al listar los archivos:" [])⟩
  | (none, st) =>
    match env.AddRecursive st.trace flags.folder with
    | some _ =>
      ⟨some 1, (st.emit (.AddRecursive flags.folder)).emit
        (.pterm .Error "Error al agregar carpeta al watcher:" [])⟩
    | none =>
      let st := (st.emit (.AddRecursive flags.folder)).emit
        (.pterm .Info "Monitoreando cambios en la carpeta local:" [flags.folder])
      match env.Start st.trace with
      | some _ =>
        ⟨some 1, (st.emit .Start).emit (.pterm .Error "Error al iniciar el watcher:" [])⟩
      | none =>
        match watchLoop env flags.folder flags.bucket received (st.emit .Start) with
        | (.Closed, st) => ⟨some 0, st⟩
        | (.Watching, st) => ⟨none, st⟩

/-- The declared defaults of the flags: the value of every flag variable
before `flag.Parse`, and after it when the command line gives no flag. -/
def noFlags : Flags :=
  ⟨[], [], [], [], [], false, false⟩

/-- Go: `strconv.ParseBool`. -/
def ParseBool (s : Str) : Option Bool :=
  if s ∈ ["1".toList, "t".toList, "T".toList, "TRUE".toList, "true".toList, "True".toList] then
    some true
  else if s ∈ ["0".toList, "f".toList, "F".toList, "FALSE".toList, "false".toList,
      "False".toList] then some false
  else none

/-- The two kinds of flag `main.go` declares: `flag.String` and `flag.Bool`. -/
inductive FlagKind where
  | string
  | bool
  deriving DecidableEq, Repr

/-- The flags `main.go` declares, by name (Go: `f.formal[name]`). -/
def formal (name : Str) : Option FlagKind :=
  if name = "endPoint".toList ∨ name = "accessKey".toList ∨ name = "secretKey".toList ∨
      name = "bucket".toList ∨ name = "folder".toList then some .string
  else if name = "ssl".toList ∨ name = "install".toList then some .bool
  else none

/-- Go: `Set` on a string flag. -/
def setString (flags : Flags) (name value : Str) : Flags :=
  if name = "endPoint".toList then { flags with endPoint := value }
  else if name = "accessKey".toList then { flags with accessKey := value }
  else if name = "secretKey".toList then { flags with secretKey := value }
  else if name = "bucket".toList then { flags with bucket := value }
  else if name = "folder".toList then { flags with folder := value }
  else flags

/-- Go: `Set` on a boolean flag, the value already parsed. -/
def setBool (flags : Flags) (name : Str) (b : Bool) : Flags :=
  if name = "ssl".toList then { flags with useSSL := b }
  else if name = "install".toList then { flags with install := b }
  else flags

/-- How `flag.Parse` ends: all flags read, or `-h`/`-help` met, or an error
(an undefined flag, bad syntax, a missing or invalid value). -/
inductive Parsed where
  | ok (flags : Flags)
  | help
  | failed
  deriving DecidableEq, Repr

/-- Go: the loop of `FlagSet.Parse` over `parseOne`, on the arguments after the
program name.  Parsing stops without error at the first argument that is not
a flag and at `--`. -/
def flagParse : List Str → Flags → Parsed
  | [], flags => .ok flags
  | s :: rest, flags =>
    if s.length < 2 ∨ s.head? ≠ some '-' then .ok flags
    else if s = ['-', '-'] then .ok flags
    else
      let name0 := if s.get? 1 = some '-' then s.drop 2 else s.drop 1
      if name0 = [] ∨ name0.head? = some '-' ∨ name0.head? = some '=' then .failed
      else
        let name := name0.take 1 ++ name0.tail.takeWhile (fun x => x != '=')
        let after := name0.tail.dropWhile (fun x => x != '=')
        match formal name with
        | none => if name = "help".toList ∨ name = "h".toList then .help else .failed
        | some .bool =>
          if after = [] then flagParse rest (setBool flags name true)
          else
            match ParseBool after.tail with
            | some b => flagParse rest (setBool flags name b)
            | none => .failed
        | some .string =>
          if after = [] then
            match rest with
            | [] => .failed
            | value :: rest2 => flagParse rest2 (setString flags name value)
          else flagParse rest (setString flags name after.tail)

/-- The function `main`.  `args` is the command line after the program name,
`tree` is what the start-up walk finds under the folder and `received` is what
the goroutine receives afterwards.  `flag.Parse` works on the command-line
flag set, which exits on error: with code 0 after the usage text for `-h` or
`-help`, with code 2 after the error line and the usage text otherwise. -/
def main (sys : SystemConsts) (env : Env) (args : List Str) (tree : FsNode)
    (received : List Received) (st : State) : Run :=
  match flagParse args noFlags with
  | .help => ⟨some 0, st.emit .Usage⟩
  | .failed => ⟨some 2, (st.emit .FlagError).emit .Usage⟩
  | .ok flags =>
  if flags.install then
    match setupConfig sys env st with
    | (some code, st) => ⟨some code, st⟩
    | (none, st) =>
      match installCommand env st with
      | (some code, st) => ⟨some code, st⟩
      | (none, st) => ⟨some 0, st⟩
  else
    match loadConfig env st with
    | (.error _, st) => ⟨some 1, st.emit (.pterm .Error "Error al cargar la configuración:" [])⟩
    | (.ok config, st) =>
      let flags := mergeFlags flags config
      if missingRequired flags then ⟨some 1, st.emit .PrintDefaults⟩
      else
        match env.MinioNew st.trace flags.endPoint flags.accessKey flags.secretKey sys.UseSSL with
        | some _ =>
          ⟨some 1, (st.emit (.MinioNew flags.endPoint flags.accessKey flags.secretKey
            sys.UseSSL)).emit (.pterm .Error "Error al inicializar el cliente MinIO:" [])⟩
        | none =>
          let st := st.emit (.MinioNew flags.endPoint flags.accessKey flags.secretKey sys.UseSSL)
          match env.BucketExists st.trace flags.bucket with
          | .error _ =>
            ⟨some 1, (st.emit (.BucketExists flags.bucket)).emit
              (.pterm .Error "Error al verificar la existencia del bucket:" [])⟩
          | .ok true =>
            syncFolder env flags tree received
              ((st.emit (.BucketExists flags.bucket)).emit
                (.pterm .Info "Bucket" [flags.bucket, "ya existe".toList]))
          | .ok false =>
            let st := st.emit (.BucketExists flags.bucket)
            match env.MakeBucket st.trace flags.bucket with
            | some _ =>
              ⟨some 1, (st.emit (.MakeBucket flags.bucket)).emit
                (.pterm .Error "Error al crear el bucket:" [])⟩
            | none =>
              syncFolder env flags tree received
                ((st.emit (.MakeBucket flags.bucket)).emit
                  (.pterm .Success "Bucket" [flags.bucket, "creado correctamente".toList]))

/-! ## `filepath.Clean` and `filepath.Join` on Unix

Concrete environments below answer `Join` the way Go does on Unix. -/

/-- Go: the inner loop of the `..` case of `filepath.Clean`, which moves the
write index back to the previous separator: `w` is the index after `out.w--`. -/
def backtrackTo (out : Str) (dotdot : Nat) : Nat → Nat
  | 0 => 0
  | w + 1 =>
    if w + 1 > dotdot ∧ out.get? (w + 1) ≠ some '/' then backtrackTo out dotdot w else w + 1

/-- Go: the loop `for r < n` of `filepath.Clean`.  `path` is what is left to
read, `out` what has been written.  Every round reads at least one byte, so a
`fuel` of the length of the path is never used up. -/
def cleanLoop (rooted : Bool) : Nat → Str → Str → Nat → Str
  | 0, _, out, _ => out
  | fuel + 1, path, out, dotdot =>
    match path with
    | [] => out
    | c :: rest =>
      if c = '/' then cleanLoop rooted fuel rest out dotdot
      else if c = '.' ∧ (rest = [] ∨ rest.head? = some '/') then
        cleanLoop rooted fuel rest out dotdot
      else if c = '.' ∧ rest.head? = some '.' ∧ (rest.tail = [] ∨ rest.tail.head? = some '/') then
        if out.length > dotdot then
          cleanLoop rooted fuel rest.tail
            (out.take (backtrackTo out dotdot (out.length - 1))) dotdot
        else if !rooted then
          let out1 := (if out.length > 0 then out ++ ['/'] else out) ++ ['.', '.']
          cleanLoop rooted fuel rest.tail out1 out1.length
        else cleanLoop rooted fuel rest.tail out dotdot
      else
        let out1 := if (rooted && out.length != 1) || (!rooted && out.length != 0)
          then out ++ ['/'] else out
        cleanLoop rooted fuel (path.dropWhile (fun x => x != '/'))
          (out1 ++ path.takeWhile (fun x => x != '/')) dotdot

/-- Go: `filepath.Clean` on Unix (no volume name, separator `/`). -/
def Clean (path : Str) : Str :=
  if path = [] then ['.']
  else
    let rooted := path.head? = some '/'
    let out := cleanLoop rooted path.length (if rooted then path.tail else path)
      (if rooted then ['/'] else []) (if rooted then 1 else 0)
    if out = [] then ['.'] else out

/-- Go: `filepath.Join` on Unix: the elements from the first non-empty one on,
joined by `/` and cleaned. -/
def unixJoin : List Str → Str
  | [] => []
  | e :: rest => if e = [] then unixJoin rest else Clean (List.intercalate ['/'] (e :: rest))

/-- Go: `filepath.Dir` on Unix: the path up to its last separator, cleaned. -/
def unixDir (path : Str) : Str :=
  Clean ((path.reverse.dropWhile (fun x => x != '/')).reverse)

/-- Go: `filepath.Abs` on Unix, the working directory being `cwd`. -/
def unixAbs (cwd path : Str) : Str :=
  if path.head? = some '/' then Clean path else unixJoin [cwd, path]

/-- A Unix machine on which every call succeeds: the home and working
directory is `/home/u`, every path is a file of two bytes, the store accepts
every request, the bucket exists. -/
def unixEnv : Env :=
  { PathSeparator := '/'
    Join := unixJoin
    Abs := fun p => .ok (unixAbs "/home/u".toList p)
    Dir := unixDir
    GOOS := "linux".toList
    Args0 := "/usr/local/bin/sync".toList
    Getenv := fun name => if name = "HOME".toList then "/home/u".toList else []
    UserCurrent := fun _ => .ok "/home/u".toList
    Stat := fun _ _ => .ok ⟨false, 2⟩
    ReadFile := fun _ _ => .ok []
    Unmarshal := fun _ => .ok ⟨[], [], [], [], [], false⟩
    MkdirAll := fun _ _ => none
    WriteFile := fun _ _ _ => none
    OpenFile := fun _ _ => none
    WriteString := fun _ _ _ => none
    MinioNew := fun _ _ _ _ _ => none
    BucketExists := fun _ _ => .ok true
    MakeBucket := fun _ _ => none
    Open := fun _ _ => .ok [104, 105]
    PutObject := fun _ _ _ _ _ => none
    RemoveObject := fun _ _ _ => none
    AddRecursive := fun _ _ => none
    Start := fun _ => none }

/-! ## Reading a trace -/

/-- The effects added to the trace since an earlier state `st0`. -/
def State.since (st st0 : State) : List Effect :=
  st.trace.drop st0.trace.length

/-- The keys of the `PutObject` calls of a trace, in order. -/
def putKeys (t : List Effect) : List Str :=
  t.filterMap (fun e => match e with
    | .PutObject _ k _ _ => some k
    | _ => none)

/-- The keys of the `RemoveObject` calls of a trace, in order. -/
def removeKeys (t : List Effect) : List Str :=
  t.filterMap (fun e => match e with
    | .RemoveObject _ k => some k
    | _ => none)

/-- The paths of the `os.Stat` calls of a trace, in order.  `uploadFile` starts
with one `os.Stat` of its argument and makes no other. -/
def statPaths (t : List Effect) : List Str :=
  t.filterMap (fun e => match e with
    | .Stat p => some p
    | _ => none)

mutual
/-- The paths of the entries of a tree that are not directories, in the order
of the walk; `path` is the path of the node. -/
def nonDirPaths (env : Env) (path : Str) : FsNode → List Str
  | .lstatErr _ => []
  | .nonDir _ => [path]
  | .dir _ entries => nonDirPathsIn env path entries
/-- The same for the entries of the directory `path`. -/
def nonDirPathsIn (env : Env) (path : Str) : FsList → List Str
  | .nil => []
  | .cons name node rest =>
    nonDirPaths env (env.Join [path, name]) node ++ nonDirPathsIn env path rest
end

mutual
/-- A tree the walk gets through without an error: every `Lstat` and every
read of a directory succeeds. -/
def FsNode.noError : FsNode → Bool
  | .lstatErr _ => false
  | .nonDir _ => true
  | .dir readErr entries => readErr.isNone && entries.noError
/-- The same for the entries of a directory. -/
def FsList.noError : FsList → Bool
  | .nil => true
  | .cons _ node rest => node.noError && rest.noError
end

mutual
/-- The root-relative paths of the entries of a tree that are not
directories, as the specification names them; `rel` is the root-relative path
of the node. -/
def relPaths (sep : Char) (rel : Str) : FsNode → List Str
  | .lstatErr _ => []
  | .nonDir _ => [rel]
  | .dir _ entries => relPathsIn sep (some rel) entries
/-- The same for the entries of a directory: of the root when `parent` is
`none`, of the directory with root-relative path `d` when it is `some d`. -/
def relPathsIn (sep : Char) (parent : Option Str) : FsList → List Str
  | .nil => []
  | .cons name node rest =>
    relPaths sep (match parent with
      | none => name
      | some d => d ++ sep :: name) node ++ relPathsIn sep parent rest
end

mutual
/-- Along the tree, `filepath.Join` of a directory and a name is the
directory, one separator and the name. -/
def joinsPlainly (env : Env) (path : Str) : FsNode → Bool
  | .dir _ entries => joinsPlainlyIn env path entries
  | _ => true
/-- The same for the entries of the directory `path`. -/
def joinsPlainlyIn (env : Env) (path : Str) : FsList → Bool
  | .nil => true
  | .cons name node rest =>
    decide (env.Join [path, name] = path ++ env.PathSeparator :: name) &&
      joinsPlainly env (path ++ env.PathSeparator :: name) node &&
      joinsPlainlyIn env path rest
end

/-- The path of the directory with root-relative path `parent` (the root
itself for `none`) under `folder`. -/
def under (sep : Char) (folder : Str) : Option Str → Str
  | none => folder
  | some d => folder ++ sep :: d

/-- The tree with the files `a.txt` and `sub/b.txt`. -/
def twoFiles : FsList :=
  .cons "a.txt".toList (.nonDir 2)
    (.cons "sub".toList (.dir none (.cons "b.txt".toList (.nonDir 2) .nil)) .nil)

/-- A Unix machine on which `/data/a.txt` cannot be opened (say, for lack of
permission); everything else succeeds. -/
def unreadableEnv : Env :=
  { unixEnv with
    Open := fun _ p => if p = "/data/a.txt".toList then .error (.other 13) else .ok [104, 105] }

/-- A Unix machine whose configuration file holds `config`. -/
def configEnv (config : Config) : Env :=
  { unixEnv with Unmarshal := fun _ => .ok config }

/-- A configuration file with every value but the secret key. -/
def noSecretConfig : Config :=
  ⟨"play.min.io".toList, "ak".toList, [], "bkt".toList, "/data".toList, false⟩

/-- Some values for the constants of the package `system`. -/
def someConsts : SystemConsts :=
  ⟨"play.min.io".toList, "ak".toList, "sk".toList, "bkt".toList, "/data".toList, false⟩

/-- An attempt at a transfer: an upload of a path or a delete of a key. -/
inductive Attempt where
  | upload (path : Str)
  | delete (objectName : Str)
  deriving DecidableEq, Repr

/-- The transfers attempted in a trace of the goroutine, in order: every run of
`uploadFile` shows as its `os.Stat`, every run of `deleteFile` as its
`RemoveObject`. -/
def attempts (t : List Effect) : List Attempt :=
  t.filterMap (fun e => match e with
    | .Stat p => some (.upload p)
    | .RemoveObject _ k => some (.delete k)
    | _ => none)

/-- The table of the specification: the transfer to attempt for what the loop
receives.  `Created`, `Modified`, `Renamed` and `Moved` upload the path,
`Removed` deletes its key, anything else does nothing. -/
def specAction (sep : Char) (folder : Str) : Received → Option Attempt
  | .event ⟨.Create, p⟩ => some (.upload p)
  | .event ⟨.Write, p⟩ => some (.upload p)
  | .event ⟨.Rename, p⟩ => some (.upload p)
  | .event ⟨.Move, p⟩ => some (.upload p)
  | .event ⟨.Remove, p⟩ => some (.delete (TrimPrefix p (folder ++ [sep])))
  | _ => none

/-- A Unix machine whose store refuses every put for the key `bad.txt` and
accepts all others. -/
def refusingEnv : Env :=
  { unixEnv with
    PutObject := fun _ _ k _ _ => if k = "bad.txt".toList then some (.other 503) else none }

/-- A name as the listing of a directory gives it: not empty, without a
separator, and neither `.` nor `..`. -/
def validName (n : Str) : Prop :=
  n ≠ [] ∧ '/' ∉ n ∧ n ≠ ['.'] ∧ n ≠ ['.', '.']

instance validName.decidable (n : Str) : Decidable (validName n) := by
  unfold validName
  infer_instance

/-- What the default case of the loop of `Clean` does to `out` for the path
element `n`: a separator where one is needed, then the element. -/
def addElem (rooted : Bool) (o n : Str) : Str :=
  (if (rooted && o.length != 1) || (!rooted && o.length != 0) then o ++ ['/'] else o) ++ n

mutual
/-- Every name in the tree is one a directory listing can give. -/
def FsNode.validNames : FsNode → Prop
  | .dir _ entries => entries.validNames
  | _ => True
/-- The same for the entries of a directory. -/
def FsList.validNames : FsList → Prop
  | .nil => True
  | .cons name node rest => validName name ∧ node.validNames ∧ rest.validNames
end

/-- From `st` to `st1` nothing was deleted, every put was for one of `keys`,
and the objects under other keys are as they were. -/
def Frame (keys : List Str) (st st1 : State) : Prop :=
  ∃ new, st1.trace = st.trace ++ new ∧ removeKeys new = [] ∧
    (∀ k ∈ putKeys new, k ∈ keys) ∧ ∀ k, k ∉ keys → st1.objects.get k = st.objects.get k

/-- Since `st`, `os.Stat` was called on `paths`, in this order, and on nothing
else: `uploadFile` ran once for each of them. -/
def Visited (paths : List Str) (st st1 : State) : Prop :=
  ∃ new, st1.trace = st.trace ++ new ∧ statPaths new = paths

/-- Since `st` the puts were those for `keys`, in this order, and the keys of
the bucket are the former ones and `keys`. -/
def Stored (keys : List Str) (st st1 : State) : Prop :=
  ∃ new, st1.trace = st.trace ++ new ∧ putKeys new = keys ∧
    ∀ k, k ∈ st1.objects.keys ↔ k ∈ st.objects.keys ∨ k ∈ keys

/-- The file at `p` can be read at any time: `os.Stat` reports a
non-directory and `os.Open` succeeds. -/
def Readable (env : Env) (p : Str) : Prop :=
  (∀ t, ∃ info, env.Stat t p = .ok info ∧ info.IsDir = false) ∧
    ∀ t, ∃ content, env.Open t p = .ok content

/-- The operations the start-up is to withhold: a call of the store client,
a check or creation of the bucket, a put or a delete, a step of the walk over
the folder or the opening of a file, the registration or start of the watch,
and any write to the file system. -/
def Effect.isSyncOperation : Effect → Bool
  | .MinioNew _ _ _ _ | .BucketExists _ | .MakeBucket _ | .PutObject _ _ _ _
  | .RemoveObject _ _ | .Lstat _ | .ReadDir _ | .Open _ | .AddRecursive _ | .Start
  | .MkdirAll _ | .WriteFile _ _ | .OpenFile _ | .WriteString _ _ => true
  | _ => false

/-- Calls that read the local file system. -/
def Effect.readsFiles : Effect → Bool
  | .Stat _ | .Open _ | .Lstat _ | .ReadDir _ | .ReadFile _ | .OpenFile _ => true
  | _ => false

/-! ## Basic facts -/

theorem HasPrefix_append (p s : Str) : HasPrefix (p ++ s) p = true := by
  simp [HasPrefix]

theorem TrimPrefix_append (p s : Str) : TrimPrefix (p ++ s) p = s := by
  simp [TrimPrefix, HasPrefix_append]

theorem eq_append_of_HasPrefix {s p : Str} (h : HasPrefix s p = true) :
    s = p ++ s.drop p.length := by
  simp only [HasPrefix, Bool.and_eq_true, decide_eq_true_eq, beq_iff_eq] at h
  conv_lhs => rw [← List.take_append_drop p.length s, h.2]

theorem since_of_trace_eq {st st0 : State} {new : List Effect}
    (h : st.trace = st0.trace ++ new) : st.since st0 = new := by
  simp [State.since, h]

theorem deleteFile_trace (env : Env) (folder bucket path : Str) (st : State) :
    ∃ lvl msg args, (deleteFile env folder bucket path st).trace = st.trace ++
      [.RemoveObject bucket (TrimPrefix path (folder ++ [env.PathSeparator])),
        .pterm lvl msg args] := by
  unfold deleteFile
  cases h : env.RemoveObject st.trace bucket (TrimPrefix path (folder ++ [env.PathSeparator])) <;>
    simp [State.emit, h]

/-- The five ways `uploadFile` can go, each with the effects it adds and what
it does to the bucket. -/
theorem uploadFile_cases (env : Env) (folder bucket path : Str) (st : State) :
    ((uploadFile env folder bucket path st).objects = st.objects ∧
      ((uploadFile env folder bucket path st).trace = st.trace ++
          [.Stat path, .pterm .Error "Error al obtener información del archivo:" []] ∨
        (uploadFile env folder bucket path st).trace = st.trace ++ [.Stat path] ∨
        (uploadFile env folder bucket path st).trace = st.trace ++
          [.Stat path, .Open path, .pterm .Error "Error al abrir archivo:" []] ∨
        ∃ c n, (uploadFile env folder bucket path st).trace = st.trace ++
          [.Stat path, .Open path,
            .PutObject bucket (TrimPrefix path (folder ++ [env.PathSeparator])) c n,
            .pterm .Error "Error al subir archivo:" []])) ∨
    ∃ c n, (uploadFile env folder bucket path st).objects =
        st.objects.put (TrimPrefix path (folder ++ [env.PathSeparator])) (c.take n) ∧
      (uploadFile env folder bucket path st).trace = st.trace ++
        [.Stat path, .Open path,
          .PutObject bucket (TrimPrefix path (folder ++ [env.PathSeparator])) c n,
          .pterm .Success "Archivo subido:"
            [TrimPrefix path (folder ++ [env.PathSeparator])]] := by
  unfold uploadFile
  cases hs : env.Stat st.trace path with
  | error e => left; simp [State.emit]
  | ok info =>
    by_cases hd : info.IsDir = true
    · left; simp [State.emit, hd]
    · simp only [hd, Bool.false_eq_true, if_false]
      cases ho : env.Open (st.emit (.Stat path)).trace path with
      | error e => left; simp [State.emit]
      | ok content =>
        simp only []
        cases hp : env.PutObject ((st.emit (.Stat path)).emit (.Open path)).trace bucket
            (TrimPrefix path (folder ++ [env.PathSeparator])) content info.Size with
        | some e => left; simp [State.emit]
        | none => right; exact ⟨content, info.Size, by simp [State.emit]⟩

theorem Objects.get_put_self (objs : Objects) (k : Str) (c : Bytes) :
    (objs.put k c).get k = some c := by
  induction objs with
  | nil => simp [Objects.put, Objects.get]
  | cons kv rest ih =>
    obtain ⟨k0, v0⟩ := kv
    by_cases h : k0 = k <;> simp [Objects.put, Objects.get, h, ih]

theorem Objects.get_put_of_ne (objs : Objects) {k k1 : Str} (c : Bytes) (h : k1 ≠ k) :
    (objs.put k c).get k1 = objs.get k1 := by
  induction objs with
  | nil => simp [Objects.put, Objects.get, Ne.symm h]
  | cons kv rest ih =>
    obtain ⟨k0, v0⟩ := kv
    by_cases h0 : k0 = k
    · subst h0
      simp [Objects.put, Objects.get, Ne.symm h]
    · by_cases h1 : k0 = k1
      · subst h1
        simp [Objects.put, Objects.get, h0]
      · simp [Objects.put, Objects.get, h0, h1, ih]

theorem Objects.put_put (objs : Objects) (k : Str) (c : Bytes) :
    (objs.put k c).put k c = objs.put k c := by
  induction objs with
  | nil => simp [Objects.put]
  | cons kv rest ih =>
    obtain ⟨k0, v0⟩ := kv
    by_cases h : k0 = k <;> simp [Objects.put, h, ih]

theorem Objects.mem_keys_put (objs : Objects) (k k1 : Str) (c : Bytes) :
    k1 ∈ (objs.put k c).keys ↔ k1 = k ∨ k1 ∈ objs.keys := by
  induction objs with
  | nil => simp [Objects.put, Objects.keys]
  | cons kv rest ih =>
    obtain ⟨k0, v0⟩ := kv
    by_cases h : k0 = k
    · subst h
      simp [Objects.put, Objects.keys]
    · simp only [Objects.keys] at ih
      simp only [Objects.put, h, if_false, Objects.keys, List.map_cons, List.mem_cons, ih]
      tauto

theorem Objects.get_remove_self (objs : Objects) (k : Str) : (objs.remove k).get k = none := by
  induction objs with
  | nil => simp [Objects.remove, Objects.get]
  | cons kv rest ih =>
    obtain ⟨k0, v0⟩ := kv
    by_cases h : k0 = k <;> simp [Objects.remove, Objects.get, h, ih]

theorem Objects.get_remove_of_ne (objs : Objects) {k k1 : Str} (h : k1 ≠ k) :
    (objs.remove k).get k1 = objs.get k1 := by
  induction objs with
  | nil => simp [Objects.remove, Objects.get]
  | cons kv rest ih =>
    obtain ⟨k0, v0⟩ := kv
    by_cases h0 : k0 = k
    · subst h0
      simp [Objects.remove, Objects.get, Ne.symm h, ih]
    · by_cases h1 : k0 = k1
      · subst h1
        simp [Objects.remove, Objects.get, h0]
      · simp [Objects.remove, Objects.get, h0, h1, ih]

/-- What `uploadFile` does when the file can be read and the store accepts it. -/
theorem uploadFile_success (env : Env) (folder bucket path : Str) (st : State)
    (info : FileInfo) (content : Bytes)
    (hstat : env.Stat st.trace path = .ok info) (hdir : info.IsDir = false)
    (hopen : env.Open (st.trace ++ [.Stat path]) path = .ok content)
    (hput : env.PutObject (st.trace ++ [.Stat path, .Open path]) bucket
      (TrimPrefix path (folder ++ [env.PathSeparator])) content info.Size = none) :
    uploadFile env folder bucket path st =
      { trace := st.trace ++ [.Stat path, .Open path,
          .PutObject bucket (TrimPrefix path (folder ++ [env.PathSeparator])) content info.Size,
          .pterm .Success "Archivo subido:" [TrimPrefix path (folder ++ [env.PathSeparator])]]
        objects := st.objects.put (TrimPrefix path (folder ++ [env.PathSeparator]))
          (content.take info.Size) } := by
  simp [uploadFile, State.emit, hstat, hdir, hopen, hput]

/-- What `uploadFile` does up to the `PutObject` call when the file can be
read, whatever the store answers. -/
theorem uploadFile_readable (env : Env) (folder bucket path : Str) (st : State)
    (info : FileInfo) (content : Bytes)
    (hstat : env.Stat st.trace path = .ok info) (hdir : info.IsDir = false)
    (hopen : env.Open (st.trace ++ [.Stat path]) path = .ok content) :
    ∃ lvl msg args, (uploadFile env folder bucket path st).trace =
      st.trace ++ [.Stat path, .Open path,
        .PutObject bucket (TrimPrefix path (folder ++ [env.PathSeparator])) content info.Size,
        .pterm lvl msg args] := by
  cases hp : env.PutObject (st.trace ++ [.Stat path, .Open path]) bucket
      (TrimPrefix path (folder ++ [env.PathSeparator])) content info.Size <;>
    simp [uploadFile, State.emit, hstat, hdir, hopen, hp]

theorem uploadFile_putKeys (env : Env) (folder bucket path : Str) (st : State) :
    putKeys ((uploadFile env folder bucket path st).since st) = [] ∨
      putKeys ((uploadFile env folder bucket path st).since st) =
        [TrimPrefix path (folder ++ [env.PathSeparator])] := by
  rcases uploadFile_cases env folder bucket path st with
    ⟨-, h | h | h | ⟨c, n, h⟩⟩ | ⟨c, n, -, h⟩ <;>
    simp [since_of_trace_eq h, putKeys]

theorem uploadFile_removeKeys (env : Env) (folder bucket path : Str) (st : State) :
    removeKeys ((uploadFile env folder bucket path st).since st) = [] := by
  rcases uploadFile_cases env folder bucket path st with
    ⟨-, h | h | h | ⟨c, n, h⟩⟩ | ⟨c, n, -, h⟩ <;>
    simp [since_of_trace_eq h, removeKeys]

theorem uploadFile_statPaths (env : Env) (folder bucket path : Str) (st : State) :
    statPaths ((uploadFile env folder bucket path st).since st) = [path] := by
  rcases uploadFile_cases env folder bucket path st with
    ⟨-, h | h | h | ⟨c, n, h⟩⟩ | ⟨c, n, -, h⟩ <;>
    simp [since_of_trace_eq h, statPaths]

theorem uploadFile_get_of_ne (env : Env) (folder bucket path : Str) (st : State) {k : Str}
    (hk : k ≠ TrimPrefix path (folder ++ [env.PathSeparator])) :
    (uploadFile env folder bucket path st).objects.get k = st.objects.get k := by
  rcases uploadFile_cases env folder bucket path st with ⟨h, -⟩ | ⟨c, n, h, -⟩
  · rw [h]
  · rw [h, Objects.get_put_of_ne _ _ hk]

theorem deleteFile_removeKeys (env : Env) (folder bucket path : Str) (st : State) :
    removeKeys ((deleteFile env folder bucket path st).since st) =
      [TrimPrefix path (folder ++ [env.PathSeparator])] := by
  unfold deleteFile
  cases h : env.RemoveObject st.trace bucket (TrimPrefix path (folder ++ [env.PathSeparator])) <;>
    simp [State.emit, h, State.since, removeKeys]

theorem deleteFile_putKeys (env : Env) (folder bucket path : Str) (st : State) :
    putKeys ((deleteFile env folder bucket path st).since st) = [] := by
  unfold deleteFile
  cases h : env.RemoveObject st.trace bucket (TrimPrefix path (folder ++ [env.PathSeparator])) <;>
    simp [State.emit, h, State.since, putKeys]

/-! ## The object key -/

/-- Claim C1. The key `uploadFile` and `deleteFile` compute for the path
`r ++ separator ++ s` under the folder `r` is exactly `s`, for every `r` and
every `s` (so nothing inside `s` is changed, and a second `r ++ separator` at
the start of `s` stays): this is the value of the `TrimPrefix` expression,
the key of the one `RemoveObject` of `deleteFile`, the key of any `PutObject`
of `uploadFile`, and the key of the `PutObject` that `uploadFile` does issue
once `os.Stat` reports a non-directory and `os.Open` succeeds. -/
theorem objectName_is_suffix (env : Env) (r bucket s : Str) (st : State) :
    TrimPrefix (r ++ env.PathSeparator :: s) (r ++ [env.PathSeparator]) = s ∧
    removeKeys ((deleteFile env r bucket (r ++ env.PathSeparator :: s) st).since st) = [s] ∧
    (putKeys ((uploadFile env r bucket (r ++ env.PathSeparator :: s) st).since st) = [] ∨
      putKeys ((uploadFile env r bucket (r ++ env.PathSeparator :: s) st).since st) = [s]) ∧
    (∀ info content, env.Stat st.trace (r ++ env.PathSeparator :: s) = .ok info →
      info.IsDir = false →
      env.Open (st.trace ++ [.Stat (r ++ env.PathSeparator :: s)])
        (r ++ env.PathSeparator :: s) = .ok content →
      putKeys ((uploadFile env r bucket (r ++ env.PathSeparator :: s) st).since st) = [s]) := by
  have key : TrimPrefix (r ++ env.PathSeparator :: s) (r ++ [env.PathSeparator]) = s := by
    have := TrimPrefix_append (r ++ [env.PathSeparator]) s
    simpa using this
  refine ⟨key, ?_, ?_, ?_⟩
  · rw [deleteFile_removeKeys, key]
  · have := uploadFile_putKeys env r bucket (r ++ env.PathSeparator :: s) st
    rwa [key] at this
  · intro info content hstat hdir hopen
    obtain ⟨lvl, msg, args, h⟩ :=
      uploadFile_readable env r bucket _ st info content hstat hdir hopen
    rw [since_of_trace_eq h, key]
    simp [putKeys]

/-- Witness of claim C1: under the folder `/data`, the path `/data//data/A//b`
is mapped to `/data/A//b`: case, the doubled separator and the second
`/data/` are kept. -/
theorem objectName_is_suffix_witness :
    TrimPrefix "/data//data/A//b".toList "/data/".toList = "/data/A//b".toList ∧
    removeKeys ((deleteFile unixEnv "/data".toList "bkt".toList "/data//data/A//b".toList
      ⟨[], []⟩).since ⟨[], []⟩) = ["/data/A//b".toList] ∧
    putKeys ((uploadFile unixEnv "/data".toList "bkt".toList "/data//data/A//b".toList
      ⟨[], []⟩).since ⟨[], []⟩) = ["/data/A//b".toList] :=
  have h := objectName_is_suffix unixEnv "/data".toList "bkt".toList "/data/A//b".toList ⟨[], []⟩
  ⟨h.1, h.2.1, h.2.2.2 ⟨false, 2⟩ [104, 105] rfl rfl rfl⟩

/-- Claim C2. Under one root the key is injective: two paths that both start
with `r ++ separator` and get the same key are the same path.  The key is a
function of the root and the path alone: whatever the environment answers,
whatever the bucket name and whatever happened before, the `RemoveObject` of
`deleteFile` and every `PutObject` of `uploadFile` carry the key
`TrimPrefix p (r ++ separator)`. -/
theorem objectName_injective (env : Env) (r p1 p2 : Str)
    (h1 : HasPrefix p1 (r ++ [env.PathSeparator]) = true)
    (h2 : HasPrefix p2 (r ++ [env.PathSeparator]) = true)
    (hk : TrimPrefix p1 (r ++ [env.PathSeparator]) = TrimPrefix p2 (r ++ [env.PathSeparator])) :
    p1 = p2 ∧
    ∀ (env1 : Env) (bucket : Str) (st : State), env1.PathSeparator = env.PathSeparator →
      removeKeys ((deleteFile env1 r bucket p1 st).since st) =
        [TrimPrefix p1 (r ++ [env.PathSeparator])] ∧
      ∀ k ∈ putKeys ((uploadFile env1 r bucket p1 st).since st),
        k = TrimPrefix p1 (r ++ [env.PathSeparator]) := by
  constructor
  · have e1 := eq_append_of_HasPrefix h1
    have e2 := eq_append_of_HasPrefix h2
    simp only [TrimPrefix, h1, h2, if_true] at hk
    rw [e1, e2, hk]
  · intro env1 bucket st hsep
    constructor
    · rw [deleteFile_removeKeys, hsep]
    · intro k hkm
      rcases uploadFile_putKeys env1 r bucket p1 st with h | h
      · rw [h] at hkm
        simp at hkm
      · rw [h, hsep] at hkm
        simpa using hkm

/-- Witness of claim C2 at the root `/data` and the path `/data/a.txt`. -/
theorem objectName_injective_witness :
    "/data/a.txt".toList = "/data/a.txt".toList ∧
    ∀ (env1 : Env) (bucket : Str) (st : State), env1.PathSeparator = unixEnv.PathSeparator →
      removeKeys ((deleteFile env1 "/data".toList bucket "/data/a.txt".toList st).since st) =
        [TrimPrefix "/data/a.txt".toList ("/data".toList ++ [unixEnv.PathSeparator])] ∧
      ∀ k ∈ putKeys ((uploadFile env1 "/data".toList bucket "/data/a.txt".toList st).since st),
        k = TrimPrefix "/data/a.txt".toList ("/data".toList ++ [unixEnv.PathSeparator]) :=
  objectName_injective unixEnv "/data".toList "/data/a.txt".toList "/data/a.txt".toList
    (by decide) (by decide) rfl

/-! ## Upload and delete -/

/-- Claim C8. Uploading an unchanged regular file twice in a row succeeds twice
and leaves the bucket as the first upload left it.  The file is regular and
unchanged: `os.Stat` always reports the same non-directory, whose size is the
length of the content `os.Open` always yields; the store accepts every put
for the key.  Then each of the two uploads issues one `PutObject` for the key
and prints the success line, the bucket after the second upload equals the
bucket after the first (same keys, no further object), the object under the
key is the content of the file, and every other key is as before. -/
theorem uploadFile_idempotent (env : Env) (folder bucket path : Str) (st : State)
    (info : FileInfo) (content : Bytes)
    (hstat : ∀ t, env.Stat t path = .ok info) (hdir : info.IsDir = false)
    (hopen : ∀ t, env.Open t path = .ok content) (hsize : info.Size = content.length)
    (hput : ∀ t c n, env.PutObject t bucket (TrimPrefix path (folder ++ [env.PathSeparator]))
      c n = none) :
    (uploadFile env folder bucket path st).since st =
      [.Stat path, .Open path,
        .PutObject bucket (TrimPrefix path (folder ++ [env.PathSeparator])) content info.Size,
        .pterm .Success "Archivo subido:" [TrimPrefix path (folder ++ [env.PathSeparator])]] ∧
    (uploadFile env folder bucket path (uploadFile env folder bucket path st)).since
        (uploadFile env folder bucket path st) =
      [.Stat path, .Open path,
        .PutObject bucket (TrimPrefix path (folder ++ [env.PathSeparator])) content info.Size,
        .pterm .Success "Archivo subido:" [TrimPrefix path (folder ++ [env.PathSeparator])]] ∧
    (uploadFile env folder bucket path (uploadFile env folder bucket path st)).objects =
      (uploadFile env folder bucket path st).objects ∧
    (uploadFile env folder bucket path (uploadFile env folder bucket path st)).objects.get
      (TrimPrefix path (folder ++ [env.PathSeparator])) = some content ∧
    ∀ k, k ≠ TrimPrefix path (folder ++ [env.PathSeparator]) →
      (uploadFile env folder bucket path (uploadFile env folder bucket path st)).objects.get k =
        st.objects.get k := by
  have step : ∀ s : State, uploadFile env folder bucket path s =
      { trace := s.trace ++ [.Stat path, .Open path,
          .PutObject bucket (TrimPrefix path (folder ++ [env.PathSeparator])) content info.Size,
          .pterm .Success "Archivo subido:" [TrimPrefix path (folder ++ [env.PathSeparator])]]
        objects := s.objects.put (TrimPrefix path (folder ++ [env.PathSeparator]))
          (content.take info.Size) } :=
    fun s => uploadFile_success env folder bucket path s info content (hstat _) hdir (hopen _)
      (hput _ _ _)
  have htake : content.take info.Size = content := by rw [hsize, List.take_length]
  refine ⟨?_, ?_, ?_, ?_, ?_⟩
  · exact since_of_trace_eq (by rw [step st])
  · exact since_of_trace_eq (by rw [step (uploadFile env folder bucket path st)])
  · rw [step (uploadFile env folder bucket path st), step st]
    simp [Objects.put_put]
  · rw [step (uploadFile env folder bucket path st)]
    simp [Objects.get_put_self, htake]
  · intro k hk
    rw [uploadFile_get_of_ne _ _ _ _ _ hk, uploadFile_get_of_ne _ _ _ _ _ hk]

/-- Witness of claim C8: `/data/a.txt`, two bytes long, uploaded twice into a
bucket that already holds another object. -/
theorem uploadFile_idempotent_witness :
    (uploadFile unixEnv "/data".toList "bkt".toList "/data/a.txt".toList
      (uploadFile unixEnv "/data".toList "bkt".toList "/data/a.txt".toList
        ⟨[], [("z".toList, [1])]⟩)).objects = [("z".toList, [1]), ("a.txt".toList, [104, 105])] ∧
    (uploadFile unixEnv "/data".toList "bkt".toList "/data/a.txt".toList
      ⟨[], [("z".toList, [1])]⟩).objects = [("z".toList, [1]), ("a.txt".toList, [104, 105])] :=
  have h := uploadFile_idempotent unixEnv "/data".toList "bkt".toList "/data/a.txt".toList
    ⟨[], [("z".toList, [1])]⟩ ⟨false, 2⟩ [104, 105] (fun _ => rfl) rfl (fun _ => rfl) rfl
    (fun _ _ _ => rfl)
  ⟨h.2.2.1.trans (by decide), by decide⟩

/-- Claim C9. `deleteFile` aims at the key `uploadFile` writes.  For every
folder and path the one `RemoveObject` of `deleteFile p` carries the key
`TrimPrefix p (folder ++ separator)`, which is the key of every `PutObject`
of `uploadFile p`.  `deleteFile` gets it from the path string alone: it makes
no call that reads the file system, and it does the same in every environment
that has the same separator and the same store.  When the store carries out
the delete that follows an upload of `p`, no object is left under that key
and every other key holds what it held before the upload. -/
theorem deleteFile_targets_upload_key (env : Env) (folder bucket path : Str) (st : State) :
    removeKeys ((deleteFile env folder bucket path st).since st) =
      [TrimPrefix path (folder ++ [env.PathSeparator])] ∧
    (∀ st1 : State, ∀ k ∈ putKeys ((uploadFile env folder bucket path st1).since st1),
      k = TrimPrefix path (folder ++ [env.PathSeparator])) ∧
    (∀ e ∈ (deleteFile env folder bucket path st).since st, e.readsFiles = false) ∧
    (∀ env1 : Env, env1.PathSeparator = env.PathSeparator →
      env1.RemoveObject = env.RemoveObject →
      deleteFile env1 folder bucket path st = deleteFile env folder bucket path st) ∧
    (env.RemoveObject (uploadFile env folder bucket path st).trace bucket
        (TrimPrefix path (folder ++ [env.PathSeparator])) = none →
      (deleteFile env folder bucket path (uploadFile env folder bucket path st)).objects.get
        (TrimPrefix path (folder ++ [env.PathSeparator])) = none ∧
      ∀ k, k ≠ TrimPrefix path (folder ++ [env.PathSeparator]) →
        (deleteFile env folder bucket path (uploadFile env folder bucket path st)).objects.get k =
          st.objects.get k) := by
  refine ⟨deleteFile_removeKeys env folder bucket path st, ?_, ?_, ?_, ?_⟩
  · intro st1 k hk
    rcases uploadFile_putKeys env folder bucket path st1 with h | h
    · rw [h] at hk
      simp at hk
    · rw [h] at hk
      simpa using hk
  · intro e he
    obtain ⟨lvl, msg, args, h⟩ := deleteFile_trace env folder bucket path st
    rw [since_of_trace_eq h] at he
    simp only [List.mem_cons, List.mem_singleton, List.not_mem_nil, or_false] at he
    rcases he with rfl | rfl <;> rfl
  · intro env1 hsep hrem
    simp [deleteFile, hsep, hrem]
  · intro hrem
    have hd : deleteFile env folder bucket path (uploadFile env folder bucket path st) =
        { trace := (uploadFile env folder bucket path st).trace ++
            [.RemoveObject bucket (TrimPrefix path (folder ++ [env.PathSeparator])),
              .pterm .Warning "Archivo eliminado:"
                [TrimPrefix path (folder ++ [env.PathSeparator])]]
          objects := (uploadFile env folder bucket path st).objects.remove
            (TrimPrefix path (folder ++ [env.PathSeparator])) } := by
      simp [deleteFile, State.emit, hrem]
    rw [hd]
    refine ⟨Objects.get_remove_self _ _, ?_⟩
    intro k hk
    simp only []
    rw [Objects.get_remove_of_ne _ hk, uploadFile_get_of_ne _ _ _ _ _ hk]

/-- Witness of claim C9: `/data/a.txt` uploaded and then deleted, in a bucket
that holds another object. -/
theorem deleteFile_targets_upload_key_witness :
    (deleteFile unixEnv "/data".toList "bkt".toList "/data/a.txt".toList
      (uploadFile unixEnv "/data".toList "bkt".toList "/data/a.txt".toList
        ⟨[], [("z".toList, [1])]⟩)).objects.get
        (TrimPrefix "/data/a.txt".toList ("/data".toList ++ [unixEnv.PathSeparator])) = none ∧
    (deleteFile unixEnv "/data".toList "bkt".toList "/data/a.txt".toList
      (uploadFile unixEnv "/data".toList "bkt".toList "/data/a.txt".toList
        ⟨[], [("z".toList, [1])]⟩)).objects = [("z".toList, [1])] :=
  ⟨((deleteFile_targets_upload_key unixEnv "/data".toList "bkt".toList "/data/a.txt".toList
    ⟨[], [("z".toList, [1])]⟩).2.2.2.2 rfl).1, by decide⟩

/-! ## The watcher goroutine -/

theorem uploadFile_extends (env : Env) (folder bucket path : Str) (st : State) :
    ∃ new, (uploadFile env folder bucket path st).trace = st.trace ++ new ∧
      statPaths new = [path] ∧ removeKeys new = [] ∧ attempts new = [.upload path] ∧
      (putKeys new = [] ∨ putKeys new = [TrimPrefix path (folder ++ [env.PathSeparator])]) := by
  rcases uploadFile_cases env folder bucket path st with
    ⟨-, h | h | h | ⟨c, n, h⟩⟩ | ⟨c, n, -, h⟩ <;>
    exact ⟨_, h, by simp [statPaths, removeKeys, attempts, putKeys]⟩

theorem handleEvent_upload (env : Env) (folder bucket : Str) (e : Event) (st : State)
    (h : e.Op = .Create ∨ e.Op = .Write ∨ e.Op = .Rename ∨ e.Op = .Move) :
    handleEvent env folder bucket e st = uploadFile env folder bucket e.Path
      (st.emit (.pterm .Info "Cambio detectado en:" [e.Path])) := by
  rcases h with h | h | h | h <;> simp [handleEvent, h]

theorem handleEvent_extends (env : Env) (folder bucket : Str) (e : Event) (st : State) :
    ∃ new, (handleEvent env folder bucket e st).trace = st.trace ++ new ∧
      attempts new = (specAction env.PathSeparator folder (.event e)).toList := by
  obtain ⟨op, p⟩ := e
  cases op
  case Remove =>
    obtain ⟨lvl, msg, args, h⟩ := deleteFile_trace env folder bucket p
      (st.emit (.pterm .Warning "Archivo eliminado:" [p]))
    refine ⟨.pterm .Warning "Archivo eliminado:" [p] ::
      [.RemoveObject bucket (TrimPrefix p (folder ++ [env.PathSeparator])),
        .pterm lvl msg args], ?_, ?_⟩
    · rw [show handleEvent env folder bucket ⟨.Remove, p⟩ st = deleteFile env folder bucket p
        (st.emit (.pterm .Warning "Archivo eliminado:" [p])) from rfl, h]
      simp [State.emit]
    · simp [attempts, specAction]
  case Chmod => exact ⟨[], by simp [handleEvent], by simp [attempts, specAction]⟩
  all_goals
    obtain ⟨new, h, -, -, ha, -⟩ := uploadFile_extends env folder bucket p
      (st.emit (.pterm .Info "Cambio detectado en:" [p]))
    refine ⟨.pterm .Info "Cambio detectado en:" [p] :: new, ?_, ?_⟩
    · rw [handleEvent_upload env folder bucket _ st (by simp), h]
      simp [State.emit]
    · simp only [attempts, List.filterMap_cons] at ha ⊢
      simp [ha, specAction]

/-- Claim C3. What the goroutine does with one event `e`, for every
environment, folder, bucket and state.  For the kinds `Create`, `Write`,
`Rename` and `Move` it runs `uploadFile e.Path`: one `os.Stat` of the path, no
`RemoveObject`, and at most one `PutObject`, for the key of the path.  For
`Remove` it runs `deleteFile e.Path`: exactly one `RemoveObject`, for the key
of the path, no `PutObject` and no look at the file.  For any other kind the
state is unchanged: no call at all.  In particular a `Create` for
`folder/s` (as `folder/new.txt`) on a regular file, which `os.Stat` reports
as a non-directory and `os.Open` opens, adds to the trace the notice, the
`Stat`, the `Open`, one `PutObject` for the key `s` and the printed line of
its outcome, and nothing else. -/
theorem handleEvent_action (env : Env) (folder bucket : Str) (e : Event) (st : State) :
    (e.Op = .Create ∨ e.Op = .Write ∨ e.Op = .Rename ∨ e.Op = .Move →
      handleEvent env folder bucket e st = uploadFile env folder bucket e.Path
        (st.emit (.pterm .Info "Cambio detectado en:" [e.Path])) ∧
      statPaths ((handleEvent env folder bucket e st).since st) = [e.Path] ∧
      removeKeys ((handleEvent env folder bucket e st).since st) = [] ∧
      (putKeys ((handleEvent env folder bucket e st).since st) = [] ∨
        putKeys ((handleEvent env folder bucket e st).since st) =
          [TrimPrefix e.Path (folder ++ [env.PathSeparator])])) ∧
    (e.Op = .Remove →
      handleEvent env folder bucket e st = deleteFile env folder bucket e.Path
        (st.emit (.pterm .Warning "Archivo eliminado:" [e.Path])) ∧
      removeKeys ((handleEvent env folder bucket e st).since st) =
        [TrimPrefix e.Path (folder ++ [env.PathSeparator])] ∧
      putKeys ((handleEvent env folder bucket e st).since st) = [] ∧
      statPaths ((handleEvent env folder bucket e st).since st) = []) ∧
    (e.Op = .Chmod → handleEvent env folder bucket e st = st) ∧
    (∀ (s : Str) (info : FileInfo) (content : Bytes),
      e = ⟨.Create, folder ++ env.PathSeparator :: s⟩ →
      (∀ t, env.Stat t e.Path = .ok info) → info.IsDir = false →
      (∀ t, env.Open t e.Path = .ok content) →
      ∃ lvl msg args, (handleEvent env folder bucket e st).since st =
        [.pterm .Info "Cambio detectado en:" [e.Path], .Stat e.Path, .Open e.Path,
          .PutObject bucket s content info.Size, .pterm lvl msg args]) := by
  refine ⟨?_, ?_, ?_, ?_⟩
  · intro h
    have heq := handleEvent_upload env folder bucket e st h
    obtain ⟨new, hn, hs, hr, -, hp⟩ := uploadFile_extends env folder bucket e.Path
      (st.emit (.pterm .Info "Cambio detectado en:" [e.Path]))
    have ht : (handleEvent env folder bucket e st).trace = st.trace ++
        (.pterm .Info "Cambio detectado en:" [e.Path] :: new) := by
      rw [heq, hn]
      simp [State.emit]
    refine ⟨heq, ?_, ?_, ?_⟩
    · rw [since_of_trace_eq ht]
      simpa [statPaths] using hs
    · rw [since_of_trace_eq ht]
      simpa [removeKeys] using hr
    · rw [since_of_trace_eq ht]
      simpa [putKeys] using hp
  · intro h
    have heq : handleEvent env folder bucket e st = deleteFile env folder bucket e.Path
        (st.emit (.pterm .Warning "Archivo eliminado:" [e.Path])) := by
      simp [handleEvent, h]
    obtain ⟨lvl, msg, args, hl⟩ := deleteFile_trace env folder bucket e.Path
      (st.emit (.pterm .Warning "Archivo eliminado:" [e.Path]))
    have ht : (handleEvent env folder bucket e st).trace = st.trace ++
        [.pterm .Warning "Archivo eliminado:" [e.Path],
          .RemoveObject bucket (TrimPrefix e.Path (folder ++ [env.PathSeparator])),
          .pterm lvl msg args] := by
      rw [heq, hl]
      simp [State.emit]
    rw [since_of_trace_eq ht]
    exact ⟨heq, by simp [removeKeys], by simp [putKeys], by simp [statPaths]⟩
  · intro h
    simp [handleEvent, h]
  · intro s info content he hstat hdir hopen
    have hop : e.Op = .Create := by rw [he]
    have hpath : e.Path = folder ++ env.PathSeparator :: s := by rw [he]
    have key : TrimPrefix e.Path (folder ++ [env.PathSeparator]) = s := by
      rw [hpath]
      simpa using TrimPrefix_append (folder ++ [env.PathSeparator]) s
    obtain ⟨lvl, msg, args, hl⟩ := uploadFile_readable env folder bucket e.Path
      (st.emit (.pterm .Info "Cambio detectado en:" [e.Path])) info content (hstat _) hdir
      (hopen _)
    refine ⟨lvl, msg, args, since_of_trace_eq ?_⟩
    rw [handleEvent_upload env folder bucket e st (Or.inl hop), hl, key]
    simp [State.emit]

/-- Witness of claim C3: a `Create` for `/data/new.txt`, a regular file of two
bytes, puts the key `new.txt` once and does nothing else to the store. -/
theorem handleEvent_action_witness :
    (handleEvent unixEnv "/data".toList "bkt".toList ⟨.Create, "/data/new.txt".toList⟩
      ⟨[], []⟩).trace =
      [.pterm .Info "Cambio detectado en:" ["/data/new.txt".toList],
        .Stat "/data/new.txt".toList, .Open "/data/new.txt".toList,
        .PutObject "bkt".toList "new.txt".toList [104, 105] 2,
        .pterm .Success "Archivo subido:" ["new.txt".toList]] ∧
    putKeys ((handleEvent unixEnv "/data".toList "bkt".toList ⟨.Create, "/data/new.txt".toList⟩
      ⟨[], []⟩).since ⟨[], []⟩) = ["new.txt".toList] :=
  ⟨by decide,
    ((handleEvent_action unixEnv "/data".toList "bkt".toList ⟨.Create, "/data/new.txt".toList⟩
      ⟨[], []⟩).1 (Or.inl rfl)).2.2.2.resolve_left (by decide)⟩

theorem watchLoop_append (env : Env) (folder bucket : Str) (pre post : List Received)
    (st : State) (h : Received.closed ∉ pre) :
    watchLoop env folder bucket (pre ++ post) st =
      watchLoop env folder bucket post (watchLoop env folder bucket pre st).2 := by
  induction pre generalizing st with
  | nil => simp [watchLoop]
  | cons r rest ih =>
    have hrest : Received.closed ∉ rest := fun hm => h (List.mem_cons_of_mem _ hm)
    cases r with
    | event e =>
      show watchLoop env folder bucket (rest ++ post) (handleEvent env folder bucket e st) = _
      rw [ih _ hrest]
      rfl
    | error err =>
      show watchLoop env folder bucket (rest ++ post) (st.emit (.pterm .Error "Error:" [])) = _
      rw [ih _ hrest]
      rfl
    | closed => exact absurd (List.mem_cons_self _ _) h

theorem watchLoop_closed_iff (env : Env) (folder bucket : Str) (received : List Received)
    (st : State) :
    (watchLoop env folder bucket received st).1 = .Closed ↔ Received.closed ∈ received := by
  induction received generalizing st with
  | nil => simp [watchLoop]
  | cons r rest ih =>
    cases r with
    | event e => simp [watchLoop, ih]
    | error err => simp [watchLoop, ih]
    | closed => simp [watchLoop]

theorem watchLoop_attempts (env : Env) (folder bucket : Str) (received : List Received)
    (st : State) (h : Received.closed ∉ received) :
    ∃ new, (watchLoop env folder bucket received st).2.trace = st.trace ++ new ∧
      attempts new = received.filterMap (specAction env.PathSeparator folder) := by
  induction received generalizing st with
  | nil => exact ⟨[], by simp [watchLoop], rfl⟩
  | cons r rest ih =>
    have hrest : Received.closed ∉ rest := fun hm => h (List.mem_cons_of_mem _ hm)
    cases r with
    | event e =>
      obtain ⟨n1, h1, a1⟩ := handleEvent_extends env folder bucket e st
      obtain ⟨n2, h2, a2⟩ := ih (handleEvent env folder bucket e st) hrest
      refine ⟨n1 ++ n2, ?_, ?_⟩
      · simp only [watchLoop, h2, h1, List.append_assoc]
      · simp only [attempts, List.filterMap_append] at a1 a2 ⊢
        rw [a1, a2]
        cases hs : specAction env.PathSeparator folder (.event e) <;>
          simp [List.filterMap_cons, hs]
    | error err =>
      obtain ⟨n2, h2, a2⟩ := ih (st.emit (.pterm .Error "Error:" [])) hrest
      refine ⟨.pterm .Error "Error:" [] :: n2, ?_, ?_⟩
      · rw [show watchLoop env folder bucket (.error err :: rest) st =
          watchLoop env folder bucket rest (st.emit (.pterm .Error "Error:" [])) from rfl, h2]
        simp [State.emit]
      · simp only [attempts, List.filterMap_cons] at a2 ⊢
        simp [a2, specAction]
    | closed => exact absurd (List.mem_cons_self _ _) h

/-- Claim C5. Failures do not stop the goroutine.  For everything it may
receive and whatever the environment answers to `os.Stat`, `os.Open`,
`PutObject` and `RemoveObject`: the goroutine has returned exactly when a
closed signal was received; when none was, it is still in its loop after the
whole sequence, and the transfers attempted since the start are, in the order
received, the ones the table of the specification gives for the events
(watcher errors add none).  In particular after any such sequence and any
event `e1`, whatever became of `e1`, a following event `e2` of an uploading
kind on a file that can be read and that the store accepts is uploaded: its
handling adds the notice, the `Stat`, the `Open`, the `PutObject` and the
success line, and the object is in the bucket. -/
theorem watchLoop_fault_isolation (env : Env) (folder bucket : Str)
    (received : List Received) (st : State) :
    ((watchLoop env folder bucket received st).1 = .Closed ↔ Received.closed ∈ received) ∧
    (Received.closed ∉ received →
      (watchLoop env folder bucket received st).1 = .Watching ∧
      attempts ((watchLoop env folder bucket received st).2.since st) =
        received.filterMap (specAction env.PathSeparator folder)) ∧
    (∀ (e1 e2 : Event) (info : FileInfo) (content : Bytes), Received.closed ∉ received →
      (e2.Op = .Create ∨ e2.Op = .Write ∨ e2.Op = .Rename ∨ e2.Op = .Move) →
      (∀ t, env.Stat t e2.Path = .ok info) → info.IsDir = false →
      (∀ t, env.Open t e2.Path = .ok content) →
      (∀ t c n, env.PutObject t bucket (TrimPrefix e2.Path (folder ++ [env.PathSeparator]))
        c n = none) →
      (watchLoop env folder bucket (received ++ [.event e1, .event e2]) st).1 = .Watching ∧
      (watchLoop env folder bucket (received ++ [.event e1, .event e2]) st).2.since
          (watchLoop env folder bucket (received ++ [.event e1]) st).2 =
        [.pterm .Info "Cambio detectado en:" [e2.Path], .Stat e2.Path, .Open e2.Path,
          .PutObject bucket (TrimPrefix e2.Path (folder ++ [env.PathSeparator])) content
            info.Size,
          .pterm .Success "Archivo subido:"
            [TrimPrefix e2.Path (folder ++ [env.PathSeparator])]] ∧
      (watchLoop env folder bucket (received ++ [.event e1, .event e2]) st).2.objects.get
        (TrimPrefix e2.Path (folder ++ [env.PathSeparator])) = some (content.take info.Size)) := by
  have hstate : ∀ (l : List Received) (s : State), Received.closed ∉ l →
      (watchLoop env folder bucket l s).1 = .Watching := by
    intro l s hl
    cases hw : (watchLoop env folder bucket l s).1 with
    | Watching => rfl
    | Closed => exact absurd ((watchLoop_closed_iff env folder bucket l s).1 hw) hl
  refine ⟨watchLoop_closed_iff env folder bucket received st, ?_, ?_⟩
  · intro h
    obtain ⟨new, hn, ha⟩ := watchLoop_attempts env folder bucket received st h
    exact ⟨hstate _ _ h, by rw [since_of_trace_eq hn, ha]⟩
  · intro e1 e2 info content h hop hstat hdir hopen hput
    have h1 : Received.closed ∉ received ++ [Received.event e1] := by simp [h]
    have hsplit : received ++ [Received.event e1, Received.event e2] =
        (received ++ [Received.event e1]) ++ [Received.event e2] := by simp
    have hrun : (watchLoop env folder bucket (received ++ [.event e1, .event e2]) st).2 =
        handleEvent env folder bucket e2
          (watchLoop env folder bucket (received ++ [.event e1]) st).2 := by
      rw [hsplit, watchLoop_append _ _ _ _ _ _ h1]
      simp [watchLoop]
    have hup := uploadFile_success env folder bucket e2.Path
      ((watchLoop env folder bucket (received ++ [.event e1]) st).2.emit
        (.pterm .Info "Cambio detectado en:" [e2.Path])) info content (hstat _) hdir (hopen _)
      (hput _ _ _)
    refine ⟨hstate _ _ (by simp [h]), ?_, ?_⟩
    · apply since_of_trace_eq
      rw [hrun, handleEvent_upload env folder bucket e2 _ hop, hup]
      simp [State.emit]
    · rw [hrun, handleEvent_upload env folder bucket e2 _ hop, hup]
      exact Objects.get_put_self _ _ _

/-- Witness of claim C5: after a watcher error, the store refuses the upload of
`/data/bad.txt`; the event for `/data/good.txt` that follows is handled and
its object is stored, and the goroutine keeps watching. -/
theorem watchLoop_fault_isolation_witness :
    (watchLoop refusingEnv "/data".toList "bkt".toList
      [.error (.other 1), .event ⟨.Create, "/data/bad.txt".toList⟩,
        .event ⟨.Write, "/data/good.txt".toList⟩] ⟨[], []⟩).1 = .Watching ∧
    (watchLoop refusingEnv "/data".toList "bkt".toList
      [.error (.other 1), .event ⟨.Create, "/data/bad.txt".toList⟩,
        .event ⟨.Write, "/data/good.txt".toList⟩] ⟨[], []⟩).2.objects.get
      (TrimPrefix "/data/good.txt".toList ("/data".toList ++ [refusingEnv.PathSeparator])) =
      some (List.take 2 [104, 105]) ∧
    (watchLoop refusingEnv "/data".toList "bkt".toList
      [.error (.other 1), .event ⟨.Create, "/data/bad.txt".toList⟩,
        .event ⟨.Write, "/data/good.txt".toList⟩] ⟨[], []⟩).2.trace =
      [.pterm .Error "Error:" [],
        .pterm .Info "Cambio detectado en:" ["/data/bad.txt".toList],
        .Stat "/data/bad.txt".toList, .Open "/data/bad.txt".toList,
        .PutObject "bkt".toList "bad.txt".toList [104, 105] 2,
        .pterm .Error "Error al subir archivo:" [],
        .pterm .Info "Cambio detectado en:" ["/data/good.txt".toList],
        .Stat "/data/good.txt".toList, .Open "/data/good.txt".toList,
        .PutObject "bkt".toList "good.txt".toList [104, 105] 2,
        .pterm .Success "Archivo subido:" ["good.txt".toList]] :=
  have h := (watchLoop_fault_isolation refusingEnv "/data".toList "bkt".toList
    [.error (.other 1)] ⟨[], []⟩).2.2 ⟨.Create, "/data/bad.txt".toList⟩
    ⟨.Write, "/data/good.txt".toList⟩ ⟨false, 2⟩ [104, 105] (by decide) (Or.inr (Or.inl rfl))
    (fun _ => rfl) rfl (fun _ => rfl) (fun _ _ _ => rfl)
  ⟨h.1, h.2.2, by decide⟩

/-! ## The start-up pass -/

theorem walk_lstatErr (env : Env) (folder bucket path : Str) (e : GoError) (st : State) :
    walk env folder bucket path (.lstatErr e) st = (some e, st) := by
  simp [walk, walkFn]

theorem walk_nonDir (env : Env) (folder bucket path : Str) (size : Nat) (st : State) :
    walk env folder bucket path (.nonDir size) st =
      (none, uploadFile env folder bucket path st) := by
  simp [walk, walkFn]

theorem walk_dir_error (env : Env) (folder bucket path : Str) (e : GoError) (entries : FsList)
    (st : State) :
    walk env folder bucket path (.dir (some e) entries) st =
      (some e, st.emit (.ReadDir path)) := by
  simp [walk, walkFn]

theorem walk_dir (env : Env) (folder bucket path : Str) (entries : FsList) (st : State) :
    walk env folder bucket path (.dir none entries) st =
      walkNames env folder bucket path entries (st.emit (.ReadDir path)) := by
  simp [walk, walkFn]

theorem walkNames_nil (env : Env) (folder bucket path : Str) (st : State) :
    walkNames env folder bucket path .nil st = (none, st) := by
  simp [walkNames]

theorem walkNames_cons (env : Env) (folder bucket path name : Str) (node : FsNode)
    (rest : FsList) (st : State) :
    walkNames env folder bucket path (.cons name node rest) st =
      match walk env folder bucket (env.Join [path, name]) node
          (st.emit (.Lstat (env.Join [path, name]))) with
      | (some e, st1) => (some e, st1)
      | (none, st1) => walkNames env folder bucket path rest st1 := by
  simp [walkNames]

theorem Frame.refl (keys : List Str) (st : State) : Frame keys st st :=
  ⟨[], by simp, rfl, by simp [putKeys], fun _ _ => rfl⟩

theorem Frame.mono {keys keys1 : List Str} {st st1 : State} (h : Frame keys st st1)
    (hsub : ∀ k ∈ keys, k ∈ keys1) : Frame keys1 st st1 := by
  obtain ⟨new, ht, hr, hp, hg⟩ := h
  exact ⟨new, ht, hr, fun k hk => hsub k (hp k hk), fun k hk => hg k (fun hm => hk (hsub k hm))⟩

theorem Frame.frame_trans {k1 k2 : List Str} {s0 s1 s2 : State} (h1 : Frame k1 s0 s1)
    (h2 : Frame k2 s1 s2) : Frame (k1 ++ k2) s0 s2 := by
  obtain ⟨n1, ht1, hr1, hp1, hg1⟩ := h1
  obtain ⟨n2, ht2, hr2, hp2, hg2⟩ := h2
  refine ⟨n1 ++ n2, by rw [ht2, ht1, List.append_assoc], ?_, ?_, ?_⟩
  · simp only [removeKeys, List.filterMap_append] at hr1 hr2 ⊢
    rw [hr1, hr2]
    rfl
  · intro k hk
    simp only [putKeys, List.filterMap_append, List.mem_append] at hk hp1 hp2 ⊢
    rcases hk with hk | hk
    · exact Or.inl (hp1 k hk)
    · exact Or.inr (hp2 k hk)
  · intro k hk
    simp only [List.mem_append, not_or] at hk
    rw [hg2 k hk.2, hg1 k hk.1]

theorem Frame.emit_Lstat (st : State) (p : Str) : Frame [] st (st.emit (.Lstat p)) :=
  ⟨[.Lstat p], rfl, rfl, by simp [putKeys], fun _ _ => rfl⟩

theorem Frame.emit_ReadDir (st : State) (p : Str) : Frame [] st (st.emit (.ReadDir p)) :=
  ⟨[.ReadDir p], rfl, rfl, by simp [putKeys], fun _ _ => rfl⟩

theorem Frame.frame_uploadFile (env : Env) (folder bucket path : Str) (st : State) :
    Frame [TrimPrefix path (folder ++ [env.PathSeparator])] st
      (uploadFile env folder bucket path st) := by
  obtain ⟨new, ht, -, hr, -, hp⟩ := uploadFile_extends env folder bucket path st
  refine ⟨new, ht, hr, ?_, ?_⟩
  · intro k hk
    rcases hp with hp | hp <;> rw [hp] at hk
    · simp at hk
    · exact hk
  · intro k hk
    exact uploadFile_get_of_ne env folder bucket path st (by simpa using hk)

mutual
theorem walk_frame (env : Env) (folder bucket : Str) :
    (path : Str) → (node : FsNode) → (st : State) →
      Frame ((nonDirPaths env path node).map
        (fun p => TrimPrefix p (folder ++ [env.PathSeparator]))) st
        (walk env folder bucket path node st).2
  | path, .lstatErr e, st => by
    rw [walk_lstatErr]
    exact Frame.refl _ _
  | path, .nonDir size, st => by
    rw [walk_nonDir]
    simpa [nonDirPaths] using Frame.frame_uploadFile env folder bucket path st
  | path, .dir (some e) entries, st => by
    rw [walk_dir_error]
    exact (Frame.emit_ReadDir st path).mono (by simp)
  | path, .dir none entries, st => by
    rw [walk_dir]
    have h := (Frame.emit_ReadDir st path).frame_trans
      (walkNames_frame env folder bucket path entries (st.emit (.ReadDir path)))
    simpa [nonDirPaths] using h
theorem walkNames_frame (env : Env) (folder bucket : Str) :
    (path : Str) → (entries : FsList) → (st : State) →
      Frame ((nonDirPathsIn env path entries).map
        (fun p => TrimPrefix p (folder ++ [env.PathSeparator]))) st
        (walkNames env folder bucket path entries st).2
  | path, .nil, st => by
    rw [walkNames_nil]
    exact Frame.refl _ _
  | path, .cons name node rest, st => by
    rw [walkNames_cons]
    have h1 := (Frame.emit_Lstat st (env.Join [path, name])).frame_trans
      (walk_frame env folder bucket (env.Join [path, name]) node
        (st.emit (.Lstat (env.Join [path, name]))))
    cases hw : walk env folder bucket (env.Join [path, name]) node
        (st.emit (.Lstat (env.Join [path, name]))) with
    | mk err st1 =>
      rw [hw] at h1
      cases err with
      | some e =>
        refine h1.mono ?_
        intro k hk
        simp only [nonDirPathsIn, List.map_append, List.mem_append]
        exact Or.inl (by simpa using hk)
      | none =>
        have h2 := h1.frame_trans (walkNames_frame env folder bucket path rest st1)
        simpa [nonDirPathsIn] using h2
end

/-- Claim C6. The start-up pass only adds.  For every folder, every tree found
under it, every environment and every bucket content: the walk issues no
`RemoveObject`, every `PutObject` it issues is for the key of an entry of the
tree that is not a directory, and every key that is not the key of such an
entry holds after the pass exactly what it held before (an object that was
there is still there, unchanged). -/
theorem Walk_additive_only (env : Env) (folder bucket : Str) (tree : FsNode) (st : State) :
    removeKeys ((Walk env folder bucket folder tree st).2.since st) = [] ∧
    (∀ k ∈ putKeys ((Walk env folder bucket folder tree st).2.since st),
      ∃ p ∈ nonDirPaths env folder tree, TrimPrefix p (folder ++ [env.PathSeparator]) = k) ∧
    ∀ k, (∀ p ∈ nonDirPaths env folder tree,
        TrimPrefix p (folder ++ [env.PathSeparator]) ≠ k) →
      (Walk env folder bucket folder tree st).2.objects.get k = st.objects.get k := by
  obtain ⟨new, ht, hr, hp, hg⟩ := (Frame.emit_Lstat st folder).frame_trans
    (walk_frame env folder bucket folder tree (st.emit (.Lstat folder)))
  have hs : (Walk env folder bucket folder tree st).2.since st = new :=
    since_of_trace_eq ht
  refine ⟨by rw [hs, hr], ?_, ?_⟩
  · intro k hk
    rw [hs] at hk
    simpa using hp k hk
  · intro k hk
    exact hg k (by simpa using hk)

theorem Visited.visited_trans {p1 p2 : List Str} {s0 s1 s2 : State} (h1 : Visited p1 s0 s1)
    (h2 : Visited p2 s1 s2) : Visited (p1 ++ p2) s0 s2 := by
  obtain ⟨n1, ht1, hs1⟩ := h1
  obtain ⟨n2, ht2, hs2⟩ := h2
  refine ⟨n1 ++ n2, by rw [ht2, ht1, List.append_assoc], ?_⟩
  simp only [statPaths, List.filterMap_append] at hs1 hs2 ⊢
  rw [hs1, hs2]

mutual
theorem walk_visited (env : Env) (folder bucket : Str) :
    (path : Str) → (node : FsNode) → (st : State) → node.noError = true →
      (walk env folder bucket path node st).1 = none ∧
        Visited (nonDirPaths env path node) st (walk env folder bucket path node st).2
  | path, .lstatErr e, st, h => by simp [FsNode.noError] at h
  | path, .nonDir size, st, _ => by
    rw [walk_nonDir]
    obtain ⟨new, ht, hs, -⟩ := uploadFile_extends env folder bucket path st
    exact ⟨rfl, new, ht, by simpa [nonDirPaths] using hs⟩
  | path, .dir (some e) entries, st, h => by simp [FsNode.noError] at h
  | path, .dir none entries, st, h => by
    rw [walk_dir]
    have hn : entries.noError = true := by simpa [FsNode.noError] using h
    obtain ⟨he, hv⟩ := walkNames_visited env folder bucket path entries
      (st.emit (.ReadDir path)) hn
    have h0 : Visited [] st (st.emit (.ReadDir path)) := ⟨[.ReadDir path], rfl, rfl⟩
    exact ⟨he, by simpa [nonDirPaths] using h0.visited_trans hv⟩
theorem walkNames_visited (env : Env) (folder bucket : Str) :
    (path : Str) → (entries : FsList) → (st : State) → entries.noError = true →
      (walkNames env folder bucket path entries st).1 = none ∧
        Visited (nonDirPathsIn env path entries) st
          (walkNames env folder bucket path entries st).2
  | path, .nil, st, _ => by
    rw [walkNames_nil]
    exact ⟨rfl, [], by simp, rfl⟩
  | path, .cons name node rest, st, h => by
    rw [walkNames_cons]
    have hn : node.noError = true ∧ rest.noError = true := by
      simpa [FsList.noError] using h
    obtain ⟨he, hv⟩ := walk_visited env folder bucket (env.Join [path, name]) node
      (st.emit (.Lstat (env.Join [path, name]))) hn.1
    have h0 : Visited [] st (st.emit (.Lstat (env.Join [path, name]))) :=
      ⟨[.Lstat (env.Join [path, name])], rfl, rfl⟩
    have h1 := h0.visited_trans hv
    cases hw : walk env folder bucket (env.Join [path, name]) node
        (st.emit (.Lstat (env.Join [path, name]))) with
    | mk err st1 =>
      rw [hw] at he h1
      simp only at he
      subst he
      obtain ⟨he2, hv2⟩ := walkNames_visited env folder bucket path rest st1 hn.2
      exact ⟨he2, by simpa [nonDirPathsIn] using h1.visited_trans hv2⟩
end

theorem Stored.stored_trans {k1 k2 : List Str} {s0 s1 s2 : State} (h1 : Stored k1 s0 s1)
    (h2 : Stored k2 s1 s2) : Stored (k1 ++ k2) s0 s2 := by
  obtain ⟨n1, ht1, hp1, hk1⟩ := h1
  obtain ⟨n2, ht2, hp2, hk2⟩ := h2
  refine ⟨n1 ++ n2, by rw [ht2, ht1, List.append_assoc], ?_, ?_⟩
  · simp only [putKeys, List.filterMap_append] at hp1 hp2 ⊢
    rw [hp1, hp2]
  · intro k
    rw [hk2 k, hk1 k, List.mem_append, or_assoc]

theorem Stored.stored_uploadFile (env : Env) (folder bucket path : Str) (st : State)
    (hread : Readable env path) (hput : ∀ t b k c n, env.PutObject t b k c n = none) :
    Stored [TrimPrefix path (folder ++ [env.PathSeparator])] st
      (uploadFile env folder bucket path st) := by
  obtain ⟨info, hstat, hdir⟩ := hread.1 st.trace
  obtain ⟨content, hopen⟩ := hread.2 (st.trace ++ [.Stat path])
  rw [uploadFile_success env folder bucket path st info content hstat hdir hopen (hput _ _ _ _ _)]
  refine ⟨_, rfl, by simp [putKeys], ?_⟩
  intro k
  rw [Objects.mem_keys_put]
  simp [or_comm]

mutual
theorem walk_stored (env : Env) (folder bucket : Str)
    (hput : ∀ t b k c n, env.PutObject t b k c n = none) :
    (path : Str) → (node : FsNode) → (st : State) → node.noError = true →
      (∀ p ∈ nonDirPaths env path node, Readable env p) →
      Stored ((nonDirPaths env path node).map
        (fun p => TrimPrefix p (folder ++ [env.PathSeparator]))) st
        (walk env folder bucket path node st).2
  | path, .lstatErr e, st, h, _ => by simp [FsNode.noError] at h
  | path, .nonDir size, st, _, hr => by
    rw [walk_nonDir]
    simpa [nonDirPaths] using
      Stored.stored_uploadFile env folder bucket path st (hr path (by simp [nonDirPaths])) hput
  | path, .dir (some e) entries, st, h, _ => by simp [FsNode.noError] at h
  | path, .dir none entries, st, h, hr => by
    rw [walk_dir]
    have hn : entries.noError = true := by simpa [FsNode.noError] using h
    have h0 : Stored [] st (st.emit (.ReadDir path)) :=
      ⟨[.ReadDir path], rfl, rfl, by simp [State.emit]⟩
    have h1 := walkNames_stored env folder bucket hput path entries (st.emit (.ReadDir path)) hn
      (by simpa [nonDirPaths] using hr)
    simpa [nonDirPaths] using h0.stored_trans h1
theorem walkNames_stored (env : Env) (folder bucket : Str)
    (hput : ∀ t b k c n, env.PutObject t b k c n = none) :
    (path : Str) → (entries : FsList) → (st : State) → entries.noError = true →
      (∀ p ∈ nonDirPathsIn env path entries, Readable env p) →
      Stored ((nonDirPathsIn env path entries).map
        (fun p => TrimPrefix p (folder ++ [env.PathSeparator]))) st
        (walkNames env folder bucket path entries st).2
  | path, .nil, st, _, _ => by
    rw [walkNames_nil]
    exact ⟨[], by simp, rfl, by simp [nonDirPathsIn]⟩
  | path, .cons name node rest, st, h, hr => by
    rw [walkNames_cons]
    have hn : node.noError = true ∧ rest.noError = true := by
      simpa [FsList.noError] using h
    have hr1 : ∀ p ∈ nonDirPaths env (env.Join [path, name]) node, Readable env p :=
      fun p hp => hr p (by simp [nonDirPathsIn, hp])
    have hr2 : ∀ p ∈ nonDirPathsIn env path rest, Readable env p :=
      fun p hp => hr p (by simp [nonDirPathsIn, hp])
    have he := (walk_visited env folder bucket (env.Join [path, name]) node
      (st.emit (.Lstat (env.Join [path, name]))) hn.1).1
    have h0 : Stored [] st (st.emit (.Lstat (env.Join [path, name]))) :=
      ⟨[.Lstat (env.Join [path, name])], rfl, rfl, by simp [State.emit]⟩
    have h1 := h0.stored_trans (walk_stored env folder bucket hput (env.Join [path, name]) node
      (st.emit (.Lstat (env.Join [path, name]))) hn.1 hr1)
    cases hw : walk env folder bucket (env.Join [path, name]) node
        (st.emit (.Lstat (env.Join [path, name]))) with
    | mk err st1 =>
      rw [hw] at he h1
      simp only at he
      subst he
      have h2 := h1.stored_trans (walkNames_stored env folder bucket hput path rest st1 hn.2 hr2)
      simpa [nonDirPathsIn] using h2
end

mutual
theorem nonDirPaths_eq_relPaths (env : Env) (folder : Str) :
    (rel : Str) → (node : FsNode) →
      joinsPlainly env (folder ++ env.PathSeparator :: rel) node = true →
      nonDirPaths env (folder ++ env.PathSeparator :: rel) node =
        (relPaths env.PathSeparator rel node).map (fun r => folder ++ env.PathSeparator :: r)
  | rel, .lstatErr e, _ => by simp [nonDirPaths, relPaths]
  | rel, .nonDir size, _ => by simp [nonDirPaths, relPaths]
  | rel, .dir readErr entries, h => by
    have := nonDirPathsIn_eq_relPathsIn env folder (some rel) entries
      (by simpa [joinsPlainly, under] using h)
    simpa [nonDirPaths, relPaths, under] using this
theorem nonDirPathsIn_eq_relPathsIn (env : Env) (folder : Str) :
    (parent : Option Str) → (entries : FsList) →
      joinsPlainlyIn env (under env.PathSeparator folder parent) entries = true →
      nonDirPathsIn env (under env.PathSeparator folder parent) entries =
        (relPathsIn env.PathSeparator parent entries).map
          (fun r => folder ++ env.PathSeparator :: r)
  | parent, .nil, _ => by simp [nonDirPathsIn, relPathsIn]
  | parent, .cons name node rest, h => by
    simp only [joinsPlainlyIn, Bool.and_eq_true, decide_eq_true_eq] at h
    obtain ⟨⟨hj, hn⟩, hr⟩ := h
    have h2 := nonDirPathsIn_eq_relPathsIn env folder parent rest hr
    cases parent with
    | none =>
      simp only [under] at hj hn h2 ⊢
      have h1 := nonDirPaths_eq_relPaths env folder name node hn
      simp only [nonDirPathsIn, relPathsIn, List.map_append, hj, h1, h2]
    | some d =>
      have hchild : under env.PathSeparator folder (some d) ++ env.PathSeparator :: name =
          folder ++ env.PathSeparator :: (d ++ env.PathSeparator :: name) := by
        simp [under]
      rw [hchild] at hn hj
      have h1 := nonDirPaths_eq_relPaths env folder _ node hn
      simp only [nonDirPathsIn, relPathsIn, List.map_append, hj, h1, h2]
end

theorem map_TrimPrefix_under (sep : Char) (folder : Str) (rels : List Str) :
    (rels.map (fun r => folder ++ sep :: r)).map (fun p => TrimPrefix p (folder ++ [sep])) =
      rels := by
  induction rels with
  | nil => rfl
  | cons r rest ih =>
    have key : TrimPrefix (folder ++ sep :: r) (folder ++ [sep]) = r := by
      simpa using TrimPrefix_append (folder ++ [sep]) r
    simp only [List.map_cons, key, ih]

/-! ## `filepath.Join` on a cleaned path -/

theorem length_dropWhile_le (P : Char → Bool) (l : Str) : (l.dropWhile P).length ≤ l.length := by
  induction l with
  | nil => simp
  | cons a l ih =>
    simp only [List.dropWhile_cons]
    split
    · simp only [List.length_cons]; omega
    · simp

/-- Fuel beyond the length of the path changes nothing. -/
theorem cleanLoop_fuel (rooted : Bool) :
    ∀ (n m : Nat) (path out : Str) (dotdot : Nat), path.length ≤ n → path.length ≤ m →
      cleanLoop rooted n path out dotdot = cleanLoop rooted m path out dotdot := by
  intro n
  induction n with
  | zero =>
    intro m path out dotdot hn _
    have : path = [] := List.length_eq_zero.mp (Nat.le_zero.mp hn)
    subst this
    cases m <;> simp [cleanLoop]
  | succ n ih =>
    intro m path out dotdot hn hm
    cases path with
    | nil => cases m <;> simp [cleanLoop]
    | cons c rest =>
      cases m with
      | zero => simp at hm
      | succ m =>
        simp only [List.length_cons, Nat.add_le_add_iff_right] at hn hm
        have htail : rest.tail.length ≤ rest.length := by simp
        have hdrop : c ≠ '/' →
            ((c :: rest).dropWhile (fun x => x != '/')).length ≤ rest.length := by
          intro hc
          have : (c != '/') = true := by simpa using hc
          simp only [List.dropWhile_cons, this, if_true]
          exact length_dropWhile_le _ _
        simp only [cleanLoop]
        split_ifs with h1 h2 h3 h4 h5 h6 <;>
          first
          | exact ih m _ _ _ hn hm
          | exact ih m _ _ _ (htail.trans hn) (htail.trans hm)
          | exact ih m _ _ _ ((hdrop h1).trans hn) ((hdrop h1).trans hm)

theorem takeWhile_notSep_of_not_mem (n : Str) (h : '/' ∉ n) :
    n.takeWhile (fun x => x != '/') = n ∧ n.dropWhile (fun x => x != '/') = [] := by
  induction n with
  | nil => simp
  | cons a l ih =>
    simp only [List.mem_cons, not_or] at h
    have ha : (a != '/') = true := by simpa using (Ne.symm h.1)
    simp [List.takeWhile_cons, List.dropWhile_cons, ha, ih h.2]

theorem takeWhile_append_sep (p q : Str) :
    (p ++ '/' :: q).takeWhile (fun x => x != '/') = p.takeWhile (fun x => x != '/') ∧
    (p ++ '/' :: q).dropWhile (fun x => x != '/') =
      p.dropWhile (fun x => x != '/') ++ '/' :: q := by
  induction p with
  | nil => simp
  | cons a l ih =>
    by_cases ha : a = '/'
    · subst ha; simp
    · have : (a != '/') = true := by simpa using ha
      simp [List.takeWhile_cons, List.dropWhile_cons, this, ih]

theorem cleanLoop_name (rooted : Bool) (n out : Str) (dotdot fuel : Nat) (hn : validName n)
    (hf : n.length + 1 ≤ fuel) :
    cleanLoop rooted fuel ('/' :: n) out dotdot = addElem rooted out n := by
  obtain ⟨hne, hsep, hdot, hdotdot⟩ := hn
  cases n with
  | nil => exact absurd rfl hne
  | cons c rest =>
    obtain ⟨f, rfl⟩ : ∃ f, fuel = f + 2 := ⟨fuel - 2, by simp at hf; omega⟩
    simp only [List.mem_cons, not_or] at hsep
    have hc : c ≠ '/' := Ne.symm hsep.1
    have h2 : ¬(c = '.' ∧ (rest = [] ∨ rest.head? = some '/')) := by
      rintro ⟨rfl, h | h⟩
      · exact hdot (by rw [h])
      · cases rest with
        | nil => simp at h
        | cons a l => simp at h; exact hsep.2 (by simp [h])
    have h3 : ¬(c = '.' ∧ rest.head? = some '.' ∧
        (rest.tail = [] ∨ rest.tail.head? = some '/')) := by
      rintro ⟨rfl, h, h' | h'⟩
      · cases rest with
        | nil => simp at h
        | cons a l =>
          simp at h h'
          exact hdotdot (by rw [h, h'])
      · cases rest with
        | nil => simp at h
        | cons a l =>
          cases l with
          | nil => simp at h'
          | cons b l' => simp at h'; exact hsep.2 (by simp [h'])
    have htd := takeWhile_notSep_of_not_mem (c :: rest) (by simp [hsep.1, hsep.2])
    simp only [cleanLoop, if_true, hc, h2, h3, if_false, htd.1, htd.2, addElem]
    cases f <;> simp [cleanLoop]

theorem cleanLoop_append_name (rooted : Bool) (n : Str) (hn : validName n) :
    ∀ (f : Nat) (p out : Str) (dotdot F : Nat), p.length ≤ f → (p ++ '/' :: n).length ≤ F →
      cleanLoop rooted F (p ++ '/' :: n) out dotdot =
        addElem rooted (cleanLoop rooted f p out dotdot) n := by
  intro f
  induction f with
  | zero =>
    intro p out dotdot F hp hF
    have : p = [] := List.length_eq_zero.mp (Nat.le_zero.mp hp)
    subst this
    simp only [List.nil_append, cleanLoop]
    exact cleanLoop_name rooted n out dotdot F hn (by simpa using hF)
  | succ f ih =>
    intro p out dotdot F hp hF
    cases p with
    | nil =>
      simp only [List.nil_append, cleanLoop]
      exact cleanLoop_name rooted n out dotdot F hn (by simpa using hF)
    | cons c rest =>
      obtain ⟨F0, rfl⟩ : ∃ F0, F = F0 + 1 := ⟨F - 1, by simp at hF; omega⟩
      simp only [List.length_cons, Nat.add_le_add_iff_right, List.cons_append] at hp hF
      rw [List.cons_append]
      have c2 : ((rest ++ '/' :: n) = [] ∨ (rest ++ '/' :: n).head? = some '/') ↔
          (rest = [] ∨ rest.head? = some '/') := by
        cases rest <;> simp
      have c3h : (rest ++ '/' :: n).head? = some '.' ↔ rest.head? = some '.' := by
        cases rest <;> simp
      have c3t : rest.head? = some '.' →
          (((rest ++ '/' :: n).tail = [] ∨ (rest ++ '/' :: n).tail.head? = some '/') ↔
            (rest.tail = [] ∨ rest.tail.head? = some '/')) := by
        intro h
        cases rest with
        | nil => simp at h
        | cons a l => cases l <;> simp
      have c3 : (c = '.' ∧ (rest ++ '/' :: n).head? = some '.' ∧
          ((rest ++ '/' :: n).tail = [] ∨ (rest ++ '/' :: n).tail.head? = some '/')) ↔
          (c = '.' ∧ rest.head? = some '.' ∧
            (rest.tail = [] ∨ rest.tail.head? = some '/')) := by
        constructor
        · rintro ⟨h1, h2, h3⟩
          exact ⟨h1, c3h.1 h2, (c3t (c3h.1 h2)).1 h3⟩
        · rintro ⟨h1, h2, h3⟩
          exact ⟨h1, c3h.2 h2, (c3t h2).2 h3⟩
      have htail : rest.head? = some '.' → (rest ++ '/' :: n).tail = rest.tail ++ '/' :: n := by
        intro h
        cases rest with
        | nil => simp at h
        | cons a l => simp
      have htl : rest.tail.length ≤ rest.length := by simp
      have hdrop : c ≠ '/' →
          ((c :: rest).dropWhile (fun x => x != '/')).length ≤ rest.length := by
        intro hc
        have : (c != '/') = true := by simpa using hc
        simp only [List.dropWhile_cons, this, if_true]
        exact length_dropWhile_le _ _
      have htd := takeWhile_append_sep (c :: rest) n
      simp only [List.cons_append] at htd
      simp only [cleanLoop, c2, c3, htd.1, htd.2]
      split_ifs <;>
        first
        | exact ih rest out dotdot F0 hp hF
        | (have h3 : c = '.' ∧ rest.head? = some '.' ∧
              (rest.tail = [] ∨ rest.tail.head? = some '/') := by assumption
           rw [htail h3.2.1]
           exact ih _ _ _ F0 (htl.trans hp) (by
            rw [← htail h3.2.1]
            exact (List.length_tail _).le.trans ((Nat.sub_le _ _).trans hF)))
        | (have h1 : ¬c = '/' := by assumption
           have hlen : ((c :: rest).dropWhile (fun x => x != '/') ++ '/' :: n).length ≤ F0 := by
            have := hdrop h1
            simp only [List.length_append, List.length_cons] at hF this ⊢
            omega
           exact ih _ _ _ F0 ((hdrop h1).trans hp) hlen)

theorem Clean_append_name (p n : Str) (hp : Clean p = p) (hroot : p ≠ ['/'])
    (hdot : p ≠ ['.']) (hn : validName n) : Clean (p ++ '/' :: n) = p ++ '/' :: n := by
  cases p with
  | nil => simp [Clean] at hp
  | cons c rest =>
    by_cases hc : c = '/'
    · subst hc
      have hrest : rest ≠ [] := fun h => hroot (by rw [h])
      simp only [Clean, List.head?_cons, List.tail_cons, decide_True, if_true,
        List.cons_append, List.length_cons, reduceCtorEq, if_false] at hp ⊢
      have ho : cleanLoop true (rest.length + 1) rest ['/'] 1 = '/' :: rest := by
        split at hp
        · simp at hp
        · exact hp
      rw [cleanLoop_append_name true n hn (rest.length + 1) rest ['/'] 1 _ (by simp)
        (by simp), ho]
      have hlen : rest.length ≠ 0 := fun h => hrest (List.length_eq_zero.mp h)
      simp [addElem, hlen]
    · have hh : ¬((c :: rest).head? = some '/') := by simpa using hc
      simp only [Clean, hh, decide_False, Bool.false_eq_true, if_false,
        List.cons_append, List.length_cons, reduceCtorEq] at hp ⊢
      have ho : cleanLoop false (rest.length + 1) (c :: rest) [] 0 = c :: rest := by
        split at hp
        · exact absurd hp.symm hdot
        · exact hp
      have hh2 : ¬((c :: (rest ++ '/' :: n)).head? = some '/') := by simpa using hc
      simp only [hh2, decide_False, Bool.false_eq_true, if_false]
      rw [← List.cons_append,
        cleanLoop_append_name false n hn (rest.length + 1) (c :: rest) [] 0 _ (by simp)
        (by simp), ho]
      simp [addElem]

/-- `filepath.Join` of a cleaned directory path, other than `/` and `.`, and a
name is the directory, a separator and the name. -/
theorem unixJoin_name (p n : Str) (hp : Clean p = p) (hroot : p ≠ ['/'])
    (hdot : p ≠ ['.']) (hn : validName n) : unixJoin [p, n] = p ++ '/' :: n := by
  have hne : p ≠ [] := by
    intro h
    subst h
    simp [Clean] at hp
  simp only [unixJoin, hne, if_false]
  have : List.intercalate ['/'] [p, n] = p ++ '/' :: n := by
    simp [List.intercalate, List.intersperse]
  rw [this]
  exact Clean_append_name p n hp hroot hdot hn

mutual
theorem joinsPlainly_unix (env : Env) (hj : env.Join = unixJoin)
    (hs : env.PathSeparator = '/') :
    (path : Str) → (node : FsNode) → Clean path = path → path ≠ ['/'] → path ≠ ['.'] →
      node.validNames → joinsPlainly env path node = true
  | _, .lstatErr _, _, _, _, _ => by simp [joinsPlainly]
  | _, .nonDir _, _, _, _, _ => by simp [joinsPlainly]
  | path, .dir _ entries, hc, hr, hd, hv => by
    simp only [joinsPlainly]
    exact joinsPlainlyIn_unix env hj hs path entries hc hr hd
      (by simpa [FsNode.validNames] using hv)
theorem joinsPlainlyIn_unix (env : Env) (hj : env.Join = unixJoin)
    (hs : env.PathSeparator = '/') :
    (path : Str) → (entries : FsList) → Clean path = path → path ≠ ['/'] → path ≠ ['.'] →
      entries.validNames → joinsPlainlyIn env path entries = true
  | _, .nil, _, _, _, _ => by simp [joinsPlainlyIn]
  | path, .cons name node rest, hc, hr, hd, hv => by
    have hv1 : validName name ∧ node.validNames ∧ rest.validNames := by
      simpa [FsList.validNames] using hv
    have hjoin : env.Join [path, name] = path ++ '/' :: name := by
      rw [hj]
      exact unixJoin_name path name hc hr hd hv1.1
    have hchild := Clean_append_name path name hc hr hd hv1.1
    have hne : path ≠ [] := by
      intro h
      subst h
      simp [Clean] at hc
    have hlen : 2 ≤ (path ++ '/' :: name).length := by
      have := List.length_pos.mpr hne
      simp only [List.length_append, List.length_cons]
      omega
    have hne1 : path ++ '/' :: name ≠ ['/'] := by
      intro h
      rw [h] at hlen
      simp at hlen
    have hne2 : path ++ '/' :: name ≠ ['.'] := by
      intro h
      rw [h] at hlen
      simp at hlen
    simp only [joinsPlainlyIn, hs, hjoin, decide_True, Bool.true_and, Bool.and_eq_true]
    exact ⟨joinsPlainly_unix env hj hs _ node hchild hne1 hne2 hv1.2.1,
      joinsPlainlyIn_unix env hj hs path rest hc hr hd hv1.2.2⟩
end

/-- A folder given with a trailing separator.  `filepath.Walk` hands out
cleaned paths, `/data/a.txt`, which do not start with `/data/` and a further
separator, so `TrimPrefix` strips nothing and the keys are the whole paths. -/
theorem Walk_trailing_separator :
    putKeys (Walk unixEnv "/data/".toList "bkt".toList "/data/".toList (.dir none twoFiles)
      ⟨[], []⟩).2.trace = ["/data/a.txt".toList, "/data/sub/b.txt".toList] := by
  decide

/-- Claim C4, as amended.  When the walk over the tree under the folder meets no
error (every `Lstat` and every read of a directory succeeds), it returns no
error and has run `uploadFile` exactly once for every entry that is not a
directory, in the order of the walk, and for nothing else (never for a
directory).  When moreover the folder is a directory whose entries'
paths are the folder, a separator and the root-relative path (`filepath.Join`
adds nothing but the separator and the name), every such entry can be read
(`os.Stat` reports a non-directory, `os.Open` succeeds) and the store accepts
every put, then the keys put are exactly the root-relative paths of those
entries, in order, and the keys of the bucket afterwards are the former keys
and those paths. -/
theorem Walk_uploads_every_file (env : Env) (folder bucket : Str) (tree : FsNode) (st : State)
    (herr : tree.noError = true) :
    (Walk env folder bucket folder tree st).1 = none ∧
    statPaths ((Walk env folder bucket folder tree st).2.since st) =
      nonDirPaths env folder tree ∧
    (∀ entries, tree = .dir none entries → joinsPlainlyIn env folder entries = true →
      (∀ p ∈ nonDirPathsIn env folder entries, Readable env p) →
      (∀ t b k c n, env.PutObject t b k c n = none) →
      putKeys ((Walk env folder bucket folder tree st).2.since st) =
        relPathsIn env.PathSeparator none entries ∧
      ∀ k, k ∈ (Walk env folder bucket folder tree st).2.objects.keys ↔
        k ∈ st.objects.keys ∨ k ∈ relPathsIn env.PathSeparator none entries) := by
  obtain ⟨he, hv⟩ := walk_visited env folder bucket folder tree (st.emit (.Lstat folder)) herr
  have h0 : Visited [] st (st.emit (.Lstat folder)) := ⟨[.Lstat folder], rfl, rfl⟩
  obtain ⟨new, ht, hs⟩ := h0.visited_trans hv
  refine ⟨he, ?_, ?_⟩
  · rw [show (Walk env folder bucket folder tree st).2.since st = new from
      since_of_trace_eq ht]
    simpa using hs
  · intro entries htree hjoin hread hput
    subst htree
    have hpaths := nonDirPathsIn_eq_relPathsIn env folder none entries (by simpa [under] using hjoin)
    simp only [under] at hpaths
    have hs0 : Stored [] st (st.emit (.Lstat folder)) :=
      ⟨[.Lstat folder], rfl, rfl, by simp [State.emit]⟩
    obtain ⟨new1, ht1, hp1, hk1⟩ := hs0.stored_trans
      (walk_stored env folder bucket hput folder (.dir none entries) (st.emit (.Lstat folder))
        herr (by simpa [nonDirPaths] using hread))
    simp only [nonDirPaths, hpaths, map_TrimPrefix_under, List.nil_append] at hp1 hk1
    refine ⟨?_, hk1⟩
    rw [show (Walk env folder bucket folder (.dir none entries) st).2.since st = new1 from
      since_of_trace_eq ht1]
    exact hp1

/-- Witness of claim C4, as amended: the folder `/data` with `a.txt` and
`sub/b.txt`, and an empty bucket; afterwards the bucket holds exactly the
objects `a.txt` and `sub/b.txt`. -/
theorem Walk_uploads_every_file_witness :
    putKeys ((Walk unixEnv "/data".toList "bkt".toList "/data".toList (.dir none twoFiles)
      ⟨[], []⟩).2.since ⟨[], []⟩) = ["a.txt".toList, "sub/b.txt".toList] ∧
    (Walk unixEnv "/data".toList "bkt".toList "/data".toList (.dir none twoFiles)
      ⟨[], []⟩).2.objects =
      [("a.txt".toList, [104, 105]), ("sub/b.txt".toList, [104, 105])] :=
  ⟨((Walk_uploads_every_file unixEnv "/data".toList "bkt".toList
      (.dir none twoFiles) ⟨[], []⟩ (by decide)).2.2 twoFiles rfl (by decide)
      (fun _ _ => ⟨fun _ => ⟨_, rfl, rfl⟩, fun _ => ⟨_, rfl⟩⟩)
      (fun _ _ _ _ _ => rfl)).1.trans (by decide),
    by decide⟩

/-- Counterexample to claim C4 as stated: the folder `/data` holds `a.txt` and
`sub/b.txt` and the bucket is empty; `/data/a.txt` cannot be opened.  The walk
meets no traversal error and the one put it issues succeeds, yet the keys
written are not the root-relative paths of the files: `a.txt` is missing. -/
theorem Walk_skips_unreadable_file :
    FsNode.noError (.dir none twoFiles) = true ∧
    (Walk unreadableEnv "/data".toList "bkt".toList "/data".toList (.dir none twoFiles)
      ⟨[], []⟩).1 = none ∧
    (Walk unreadableEnv "/data".toList "bkt".toList "/data".toList (.dir none twoFiles)
      ⟨[], []⟩).2.trace =
      [.Lstat "/data".toList, .ReadDir "/data".toList,
        .Lstat "/data/a.txt".toList, .Stat "/data/a.txt".toList, .Open "/data/a.txt".toList,
        .pterm .Error "Error al abrir archivo:" [],
        .Lstat "/data/sub".toList, .ReadDir "/data/sub".toList,
        .Lstat "/data/sub/b.txt".toList, .Stat "/data/sub/b.txt".toList,
        .Open "/data/sub/b.txt".toList,
        .PutObject "bkt".toList "sub/b.txt".toList [104, 105] 2,
        .pterm .Success "Archivo subido:" ["sub/b.txt".toList]] ∧
    relPathsIn '/' none twoFiles = ["a.txt".toList, "sub/b.txt".toList] ∧
    (Walk unreadableEnv "/data".toList "bkt".toList "/data".toList (.dir none twoFiles)
      ⟨[], []⟩).2.objects.keys ≠ relPathsIn '/' none twoFiles := by
  refine ⟨by decide, by decide, by decide, by decide, by decide⟩

/-! ## Start-up -/

theorem loadConfig_ok (env : Env) (st st1 : State) (config : Config)
    (h : loadConfig env st = (.ok config, st1)) :
    ∃ configFile, st1 = { trace := st.trace ++
      [.UserCurrent, .Stat configFile, .ReadFile configFile], objects := st.objects } := by
  unfold loadConfig at h
  cases hu : env.UserCurrent st.trace with
  | error e => simp [hu] at h
  | ok home =>
    refine ⟨env.Join [home, ".minio_sync".toList, "config.yaml".toList], ?_⟩
    simp only [hu] at h
    split at h
    · simp at h
    · split at h
      · simp at h
      · split at h
        · simp at h
        · simp only [Prod.mk.injEq] at h
          rw [← h.2]
          simp [State.emit]

theorem missingRequired_mergeFlags (flags : Flags) (config : Config)
    (h : (flags.endPoint = [] ∧ config.EndPoint = []) ∨
      (flags.accessKey = [] ∧ config.AccessKey = []) ∨
      (flags.secretKey = [] ∧ config.SecretKey = []) ∨
      (flags.folder = [] ∧ config.Folder = []) ∨
      (flags.bucket = [] ∧ config.Bucket = [])) :
    missingRequired (mergeFlags flags config) = true := by
  rcases h with h | h | h | h | h <;> simp [missingRequired, mergeFlags, h.1, h.2]

/-- Claim C7, as amended.  Take a command line on which `flag.Parse` does not
stop for `-h` or `-help` and which, when it parses, does not set `-install`, and
let the configuration file load, the merged configuration (the flag when it is
not empty, otherwise the value of the file) lacking the endpoint, the access
key, the secret key, the folder or the bucket.  Then the process ends with a
non-zero exit code and performs none of the store or file-system operations
of a start-up: no call of the store client, no check or creation of the
bucket, no put or delete, no walk over the folder, no registration of a
watch, no write, and the bucket is as it was.  When the command line parses,
the exit code is 1 and, the configuration file once loaded, the usage text is
all that follows; when it does not, the exit code is 2 and the error line and
the usage text are all there is. -/
theorem main_gating (sys : SystemConsts) (env : Env) (args : List Str) (tree : FsNode)
    (received : List Received) (st st1 : State) (config : Config)
    (hhelp : flagParse args noFlags ≠ .help)
    (hload : loadConfig env st = (.ok config, st1))
    (hflags : ∀ flags, flagParse args noFlags = .ok flags → flags.install = false ∧
      ((flags.endPoint = [] ∧ config.EndPoint = []) ∨
        (flags.accessKey = [] ∧ config.AccessKey = []) ∨
        (flags.secretKey = [] ∧ config.SecretKey = []) ∨
        (flags.folder = [] ∧ config.Folder = []) ∨
        (flags.bucket = [] ∧ config.Bucket = []))) :
    (∃ code, (main sys env args tree received st).exit = some code ∧ code ≠ 0) ∧
    (∀ e ∈ (main sys env args tree received st).state.since st, e.isSyncOperation = false) ∧
    (main sys env args tree received st).state.objects = st.objects ∧
    (∀ flags, flagParse args noFlags = .ok flags →
      (main sys env args tree received st).exit = some 1 ∧
      (main sys env args tree received st).state.since st1 = [.PrintDefaults]) ∧
    (flagParse args noFlags = .failed →
      (main sys env args tree received st).exit = some 2 ∧
      (main sys env args tree received st).state.since st = [.FlagError, .Usage]) := by
  cases hp : flagParse args noFlags with
  | help => exact absurd hp hhelp
  | failed =>
    have hmain : main sys env args tree received st =
        ⟨some 2, (st.emit .FlagError).emit .Usage⟩ := by
      simp [main, hp]
    have hsince : (main sys env args tree received st).state.since st =
        [.FlagError, .Usage] := by
      rw [hmain]
      exact since_of_trace_eq (by simp [State.emit])
    refine ⟨⟨2, by rw [hmain], by decide⟩, ?_, by rw [hmain]; rfl, ?_, fun _ => ⟨by rw [hmain], hsince⟩⟩
    · intro e he
      rw [hsince] at he
      simp only [List.mem_cons, List.mem_singleton, List.not_mem_nil, or_false] at he
      rcases he with rfl | rfl <;> rfl
    · intro flags hf
      simp at hf
  | ok flags =>
    obtain ⟨hinstall, hmissing⟩ := hflags flags hp
    have hm := missingRequired_mergeFlags flags config hmissing
    have hmain : main sys env args tree received st = ⟨some 1, st1.emit .PrintDefaults⟩ := by
      simp [main, hp, hinstall, hload, hm]
    obtain ⟨configFile, h1⟩ := loadConfig_ok env st st1 config hload
    have hsince : (main sys env args tree received st).state.since st =
        [.UserCurrent, .Stat configFile, .ReadFile configFile, .PrintDefaults] := by
      rw [hmain, h1]
      exact since_of_trace_eq (by simp [State.emit])
    refine ⟨⟨1, by rw [hmain], by decide⟩, ?_, by rw [hmain, h1]; rfl, ?_, fun hf => by simp at hf⟩
    · intro e he
      rw [hsince] at he
      simp only [List.mem_cons, List.mem_singleton, List.not_mem_nil, or_false] at he
      rcases he with rfl | rfl | rfl | rfl <;> rfl
    · intro flags1 _
      rw [hmain]
      exact ⟨rfl, since_of_trace_eq (by simp [State.emit])⟩

/-- Witness of claim C7, as amended: the bucket given on the command line, and a
configuration file without a secret key. -/
theorem main_gating_witness :
    (∃ code, (main someConsts (configEnv noSecretConfig) ["-bucket".toList, "b".toList]
      (.dir none twoFiles) [] ⟨[], []⟩).exit = some code ∧ code ≠ 0) ∧
    (main someConsts (configEnv noSecretConfig) ["-bucket".toList, "b".toList]
      (.dir none twoFiles) [] ⟨[], []⟩).state.trace =
      [.UserCurrent, .Stat "/home/u/.minio_sync/config.yaml".toList,
        .ReadFile "/home/u/.minio_sync/config.yaml".toList, .PrintDefaults] :=
  ⟨(main_gating someConsts (configEnv noSecretConfig) ["-bucket".toList, "b".toList]
      (.dir none twoFiles) [] ⟨[], []⟩ _ noSecretConfig (by decide) rfl
      (fun flags hf => by
        have hflags : flags = { noFlags with bucket := "b".toList } :=
          (Parsed.ok.inj hf).symm
        subst hflags
        exact ⟨rfl, Or.inr (Or.inr (Or.inl ⟨rfl, rfl⟩))⟩)).1, by decide⟩

/-- Counterexample to claim C7 as stated, at two command lines, the
configuration file lacking the secret key so that the merged configuration
lacks it.  With `-install` the process ends with exit code 0 (`main` returns)
after having made the configuration directory and appended to `.bashrc`.
With `-h` the process ends with exit code 0 after the usage text. -/
theorem main_install_or_help_exits_zero :
    (loadConfig (configEnv noSecretConfig) ⟨[], []⟩).1 = .ok noSecretConfig ∧
    flagParse ["-install".toList] noFlags = .ok { noFlags with install := true } ∧
    missingRequired (mergeFlags { noFlags with install := true } noSecretConfig) = true ∧
    (main someConsts (configEnv noSecretConfig) ["-install".toList]
      (.dir none twoFiles) [] ⟨[], []⟩).exit = some 0 ∧
    (main someConsts (configEnv noSecretConfig) ["-install".toList]
      (.dir none twoFiles) [] ⟨[], []⟩).state.trace =
      [.UserCurrent, .MkdirAll "/home/u/.minio_sync".toList,
        .Stat "/home/u/.minio_sync/config.yaml".toList,
        .pterm .Info "El archivo de configuración ya existe en:"
          ["/home/u/.minio_sync/config.yaml".toList],
        .OpenFile "/home/u/.bashrc".toList,
        .WriteString "/home/u/.bashrc".toList
          "\nexport PATH=$PATH:/usr/local/bin\n".toList,
        .pterm .Success "El programa ha sido instalado. Ejecuta 'source"
          ["/home/u/.bashrc".toList, "' para aplicar los cambios.".toList]] ∧
    flagParse ["-h".toList] noFlags = .help ∧
    missingRequired (mergeFlags noFlags noSecretConfig) = true ∧
    (main someConsts (configEnv noSecretConfig) ["-h".toList]
      (.dir none twoFiles) [] ⟨[], []⟩) = ⟨some 0, ⟨[.Usage], []⟩⟩ := by
  refine ⟨rfl, by decide, by decide, by decide, by decide, by decide, by decide, by decide⟩

/-- Claim C10, evaluated on the code.  Whatever the value `u` of the constant
`system.UseSSL`: with `-ssl=true` or `-ssl=false` on the command line so that
the flag is `!u`, and `ssl: !u` in the configuration file, the merged TLS flag
is `!u`, while the store client is made with `Secure` equal to `u`.  `main`
hands `system.UseSSL` to `minio.New`, not the merged `*useSSL`. -/
theorem main_Secure_is_system_UseSSL (u : Bool) :
    flagParse ["-ssl=".toList ++ fmtBool (!u)] noFlags = .ok { noFlags with useSSL := !u } ∧
    (mergeFlags { noFlags with useSSL := !u }
      ⟨"play.min.io".toList, "ak".toList, "sk".toList, "bkt".toList, "/data".toList, !u⟩).useSSL
      = !u ∧
    (main { someConsts with UseSSL := u }
      (configEnv ⟨"play.min.io".toList, "ak".toList, "sk".toList, "bkt".toList, "/data".toList,
        !u⟩)
      ["-ssl=".toList ++ fmtBool (!u)] (.dir none .nil) [] ⟨[], []⟩).state.trace.take 4 =
      [.UserCurrent, .Stat "/home/u/.minio_sync/config.yaml".toList,
        .ReadFile "/home/u/.minio_sync/config.yaml".toList,
        .MinioNew "play.min.io".toList "ak".toList "sk".toList u] := by
  cases u <;> exact ⟨by decide, by decide, by decide⟩

end MinioSync
